import Mathlib

/-!
Shallow embedding of the imageSearch AI-router service.

Python texts are modelled as `List Char`, timestamps and monetary amounts
as `ℚ`, and every fallible or effectful operation as an explicit pure
function over an explicit state.  Each definition is translated from one
source function, named after it.
-/

set_option maxRecDepth 4000

/-! ## ComplexityClassifier (apps/api/services/routing/classifiers/complexity.py) -/

structure ComplexityScore where
  level : String
  score : ℚ
deriving DecidableEq

/-- The closed set of abstract indicators, `ComplexityClassifier.ABSTRACT_INDICATORS`. -/
def ABSTRACT_INDICATORS : List (List Char) :=
  ["atmosphere", "mood", "feeling", "reminiscent",
   "style", "aesthetic", "vibe", "essence", "context",
   "emotional", "abstract", "surreal"].map String.toList

/-- ASCII lowering of one character, modelling Python `str.lower` per character. -/
def lowerChar (c : Char) : Char :=
  if 'A' ≤ c ∧ c ≤ 'Z' then Char.ofNat (c.toNat + 32) else c

/-- Python `str.split()` with no argument: split on whitespace runs, dropping
empty pieces.  `acc` is the (reversed) token currently being read. -/
def splitWsAux : List Char → List Char → List (List Char)
  | [], acc => if acc = [] then [] else [acc.reverse]
  | c :: cs, acc =>
    if c.isWhitespace then
      if acc = [] then splitWsAux cs [] else acc.reverse :: splitWsAux cs []
    else splitWsAux cs (c :: acc)

def splitWs (s : List Char) : List (List Char) := splitWsAux s []

/-- `ComplexityClassifier.classify`.  Note that the Python guard `if not text`
only fires on the genuinely empty string; a whitespace-only string is truthy. -/
def classify (text : List Char) : ComplexityScore :=
  if text = [] then ⟨"simple", 0⟩
  else
    let tokens := splitWs (text.map lowerChar)
    let abstract_count := (tokens.filter (fun t => ABSTRACT_INDICATORS.contains t)).length
    if tokens.length ≤ 5 ∧ abstract_count = 0 then ⟨"simple", 1/5⟩
    else if abstract_count > 0 then ⟨"complex", 4/5⟩
    else ⟨"moderate", 1/2⟩

/-- Modelled from the spec (§4.4): the four ordered classification rules as the
specification words them, with rule 1 firing on empty OR whitespace-only input
and the abstract-indicator rule checked before the token-count rule. -/
def classifySpecRules (text : List Char) : ComplexityScore :=
  if text.all Char.isWhitespace then ⟨"simple", 0⟩
  else
    let tokens := splitWs (text.map lowerChar)
    if (tokens.filter (fun t => ABSTRACT_INDICATORS.contains t)).length > 0 then ⟨"complex", 4/5⟩
    else if tokens.length ≤ 5 then ⟨"simple", 1/5⟩
    else ⟨"moderate", 1/2⟩

/-- The spec rules amended so that only the genuinely empty string takes
rule 1, as the code's truthiness test does. -/
def classifySpecRulesEmptyOnly (text : List Char) : ComplexityScore :=
  if text = [] then ⟨"simple", 0⟩
  else
    let tokens := splitWs (text.map lowerChar)
    if (tokens.filter (fun t => ABSTRACT_INDICATORS.contains t)).length > 0 then ⟨"complex", 4/5⟩
    else if tokens.length ≤ 5 then ⟨"simple", 1/5⟩
    else ⟨"moderate", 1/2⟩

/-! ## AIFeatureRouter (apps/api/services/routing/router.py) -/

inductive RoutingTier
  | edge | cache | local | cloud
deriving DecidableEq

/-- A cached caption record, as the dict stored by the semantic cache.
Every field is read back with `dict.get` and a default, so all are optional. -/
structure CachedRec where
  caption : Option (List Char)
  confidence : Option ℚ
  origin : Option String
deriving DecidableEq

structure RoutingDecision where
  tier : RoutingTier
  reason : String
  confidence : ℚ
  latency_budget_ms : Int
  fallback_chain : List RoutingTier
  metadata_cached_result : Option CachedRec
  metadata_complexity : Option ℚ
deriving DecidableEq

/-- Python `x or d` on an optional float: `None` and `0.0` are falsy. -/
def pyOrQ (x : Option ℚ) (d : ℚ) : ℚ :=
  match x with
  | some v => if v = 0 then d else v
  | none => d

/-- `AIFeatureRouter.route_caption_request`.  `cached` is the result of the
initial `self.cache.lookup(image_bytes)`; an empty cache yields `none`.
Python's `if text_hint:` is falsy for both `None` and the empty string. -/
def route_caption_request (cached : Option CachedRec) (latency_budget_ms : Int)
    (text_hint : Option (List Char)) (client_confidence : Option ℚ) : RoutingDecision :=
  match cached with
  | some c =>
    { tier := .cache, reason := "cache_hit", confidence := 1,
      latency_budget_ms := latency_budget_ms, fallback_chain := [],
      metadata_cached_result := some c, metadata_complexity := none }
  | none =>
    let hintTruthy : Bool := match text_hint with
      | some h => !h.isEmpty
      | none => false
    if hintTruthy then
      let hint := text_hint.getD []
      let complexity := classify hint
      let complexity_score := complexity.score
      let edge_conf := pyOrQ client_confidence 0
      if edge_conf > 4/5 ∧ complexity.level = "simple" then
        { tier := .edge, reason := "edge_accepted", confidence := edge_conf,
          latency_budget_ms := latency_budget_ms, fallback_chain := [.local],
          metadata_cached_result := none, metadata_complexity := some complexity_score }
      else if complexity_score > 7/10 then
        { tier := .cloud, reason := "high_complexity", confidence := 1,
          latency_budget_ms := latency_budget_ms, fallback_chain := [.local],
          metadata_cached_result := none, metadata_complexity := some complexity_score }
      else if latency_budget_ms < 200 then
        { tier := .local, reason := "low_latency_budget", confidence := 1,
          latency_budget_ms := latency_budget_ms, fallback_chain := [.cloud],
          metadata_cached_result := none, metadata_complexity := some complexity_score }
      else
        { tier := .local, reason := "default_local", confidence := 1,
          latency_budget_ms := latency_budget_ms, fallback_chain := [.cloud],
          metadata_cached_result := none, metadata_complexity := some complexity_score }
    else
      -- complexity_score keeps its default 1.0, which exceeds 0.7
      { tier := .cloud, reason := "high_complexity", confidence := 1,
        latency_budget_ms := latency_budget_ms, fallback_chain := [.local],
        metadata_cached_result := none, metadata_complexity := some 1 }

/-! ## CircuitBreaker (apps/api/services/cloud_providers/circuit_breaker.py) -/

inductive CircuitState
  | closed | opened | half_open
deriving DecidableEq

structure CircuitBreaker where
  failure_threshold : Nat
  timeout_seconds : ℚ
  half_open_max_calls : Nat
  state : CircuitState
  failure_count : Nat
  success_count : Nat
  last_failure_time : Option ℚ
  opened_at : Option ℚ
  half_open_calls : Nat
deriving DecidableEq

/-- `CircuitBreaker.__init__` with explicit parameters (state part only). -/
def CircuitBreaker.init (failure_threshold : Nat) (timeout_seconds : ℚ)
    (half_open_max_calls : Nat) : CircuitBreaker :=
  { failure_threshold, timeout_seconds, half_open_max_calls,
    state := .closed, failure_count := 0, success_count := 0,
    last_failure_time := none, opened_at := none, half_open_calls := 0 }

def CircuitBreaker.transition_to_open (b : CircuitBreaker) (now : ℚ) : CircuitBreaker :=
  { b with state := .opened, opened_at := some now }

def CircuitBreaker.transition_to_half_open (b : CircuitBreaker) : CircuitBreaker :=
  { b with state := .half_open, half_open_calls := 0, success_count := 0 }

def CircuitBreaker.transition_to_closed (b : CircuitBreaker) : CircuitBreaker :=
  { b with state := .closed, failure_count := 0, success_count := 0,
           half_open_calls := 0, opened_at := none }

/-- `CircuitBreaker.can_proceed` at wall-clock time `now`; returns the allow
flag together with the mutated breaker.  Python's `if self.opened_at and ...`
is falsy both for `None` and for the timestamp `0.0`. -/
def CircuitBreaker.can_proceed (b : CircuitBreaker) (now : ℚ) : Bool × CircuitBreaker :=
  match b.state with
  | .closed => (true, b)
  | .opened =>
    match b.opened_at with
    | some t =>
      if t ≠ 0 ∧ now - t ≥ b.timeout_seconds then (true, b.transition_to_half_open)
      else (false, b)
    | none => (false, b)
  | .half_open =>
    if b.half_open_calls < b.half_open_max_calls then
      (true, { b with half_open_calls := b.half_open_calls + 1 })
    else (false, b)

def CircuitBreaker.record_success (b : CircuitBreaker) : CircuitBreaker :=
  match b.state with
  | .closed => if b.failure_count > 0 then { b with failure_count := 0 } else b
  | .half_open => (({ b with success_count := b.success_count + 1 } : CircuitBreaker)).transition_to_closed
  | .opened => b

def CircuitBreaker.record_failure (b : CircuitBreaker) (now : ℚ) : CircuitBreaker :=
  let b := { b with last_failure_time := some now }
  match b.state with
  | .closed =>
    let b := { b with failure_count := b.failure_count + 1 }
    if b.failure_count ≥ b.failure_threshold then b.transition_to_open now else b
  | .half_open => b.transition_to_open now
  | .opened => b

/-- A run of consecutive `record_failure` calls at the given times. -/
def CircuitBreaker.record_failures (b : CircuitBreaker) (times : List ℚ) : CircuitBreaker :=
  times.foldl CircuitBreaker.record_failure b

/-- A run of consecutive `can_proceed` calls at the given times, counting how
many of them returned `allow = true`. -/
def CircuitBreaker.run_can_proceeds (b : CircuitBreaker) : List ℚ → Nat × CircuitBreaker
  | [] => (0, b)
  | t :: ts =>
    let (a, b1) := b.can_proceed t
    let (n, b2) := b1.run_can_proceeds ts
    ((if a then 1 else 0) + n, b2)

/-! ## RateLimiter (apps/api/services/cloud_providers/rate_limiter.py) -/

structure RateLimiter where
  max_per_minute : Nat
  max_per_day : Nat
  daily_budget_usd : ℚ
  minute_requests : List ℚ
  daily_requests : List ℚ
  daily_cost : ℚ
  last_reset : ℚ
deriving DecidableEq

/-- `RateLimiter.__init__` with explicit limits, at construction time `now`. -/
def RateLimiter.init (max_per_minute max_per_day : Nat) (daily_budget_usd : ℚ)
    (now : ℚ) : RateLimiter :=
  { max_per_minute, max_per_day, daily_budget_usd,
    minute_requests := [], daily_requests := [], daily_cost := 0, last_reset := now }

/-- `RateLimiter._reset_daily_if_needed`. -/
def RateLimiter.reset_daily_if_needed (rl : RateLimiter) (now : ℚ) : RateLimiter :=
  if now - rl.last_reset > 86400 then
    { rl with daily_requests := [], daily_cost := 0, last_reset := now }
  else rl

/-- The in-place pruning
`self.minute_requests = deque([t for t in self.minute_requests if now - t < 60])`. -/
def RateLimiter.prune_minute (rl : RateLimiter) (now : ℚ) : RateLimiter :=
  { rl with minute_requests := rl.minute_requests.filter (fun t => decide (now - t < 60)) }

/-- `RateLimiter.can_proceed`: budget check first (before any pruning), then
the per-minute window is pruned in place, then the per-minute and per-day
checks. -/
def RateLimiter.can_proceed (rl : RateLimiter) (now : ℚ)
    (estimated_cost_usd : ℚ) : Bool × RateLimiter :=
  let rl := rl.reset_daily_if_needed now
  if rl.daily_cost + estimated_cost_usd > rl.daily_budget_usd then (false, rl)
  else
    let rl := rl.prune_minute now
    if rl.max_per_minute ≤ rl.minute_requests.length then (false, rl)
    else if rl.max_per_day ≤ rl.daily_requests.length then (false, rl)
    else (true, rl)

/-- `RateLimiter.record_request`. -/
def RateLimiter.record_request (rl : RateLimiter) (now : ℚ) (cost_usd : ℚ) : RateLimiter :=
  { rl with minute_requests := rl.minute_requests ++ [now],
            daily_requests := rl.daily_requests ++ [now],
            daily_cost := rl.daily_cost + cost_usd }

/-- One admitted-request interaction: `can_proceed(now, est)` and, when it
allows, exactly one `record_request(now, cost)` — the pairing the limiter's
contract demands of its caller. -/
def RateLimiter.step (rl : RateLimiter) (s : ℚ × ℚ × ℚ) : Bool × RateLimiter :=
  let (now, est, cost) := s
  let (allowed, rl1) := rl.can_proceed now est
  if allowed then (true, rl1.record_request now cost) else (false, rl1)

/-- Run a sequence of interactions, collecting the times of the steps whose
`can_proceed` returned `allow = true`. -/
def RateLimiter.run (rl : RateLimiter) : List (ℚ × ℚ × ℚ) → List ℚ × RateLimiter
  | [] => ([], rl)
  | s :: steps =>
    let (a, rl1) := rl.step s
    let (ts, rl2) := rl1.run steps
    (if a then s.1 :: ts else ts, rl2)

/-! ## SemanticCache (apps/api/services/routing/tiers/cache_tier.py)

Redis is modelled as an association list from keys to `(expiry, value)`
pairs; `setex` overwrites the key and sets `expiry = now + ttl`, and a `get`
at time `now` sees the entry only while `now < expiry`.  SHA-256 hex digests
are abstracted by a parameter `h`. -/

abbrev Bytes := List Nat

structure CacheState where
  entries : List (String × ℚ × CachedRec)
deriving DecidableEq

def cache_key (h : Bytes → String) (b : Bytes) : String :=
  "caption:hash:" ++ h b

def redis_setex (s : CacheState) (key : String) (expires_at : ℚ) (v : CachedRec) :
    CacheState :=
  ⟨(key, expires_at, v) :: s.entries.filter (fun e => decide (e.1 ≠ key))⟩

def redis_get (s : CacheState) (now : ℚ) (key : String) : Option CachedRec :=
  match s.entries.find? (fun e => decide (e.1 = key)) with
  | some (_, exp, v) => if now < exp then some v else none
  | none => none

def CACHE_TTL : ℚ := 3600

/-- `SemanticCache.store` at time `now`. -/
def SemanticCache.store (h : Bytes → String) (s : CacheState) (now : ℚ)
    (image_bytes : Bytes) (result : CachedRec) : CacheState :=
  redis_setex s (cache_key h image_bytes) (now + CACHE_TTL) result

/-- `SemanticCache.lookup` at time `now`. -/
def SemanticCache.lookup (h : Bytes → String) (s : CacheState) (now : ℚ)
    (image_bytes : Bytes) : Option CachedRec :=
  redis_get s now (cache_key h image_bytes)

/-- A history of `store` operations applied in order. -/
def SemanticCache.run_stores (h : Bytes → String) (s : CacheState) :
    List (ℚ × Bytes × CachedRec) → CacheState
  | [] => s
  | (t, b, r) :: ops => SemanticCache.run_stores h (SemanticCache.store h s t b r) ops

/-! ## CaptionerClient (apps/api/services/captioner_client.py)

The external model hosts are oracles collected in a `World`: the local BLIP
model either produces a caption or raises, and `caption_cloud` either
produces a caption or returns `None` (breaker refusal, missing provider, or
provider error all return `None` in the source). -/

structure World where
  cached : Option CachedRec
  blip : Option (List Char)
  cloud : Option (List Char)

def mock_caption : List Char := "a mock caption for the image".toList

/-- The local confidence proxy of `CaptionerClient.caption`:
`max(0.0, min(1.0, 0.9 - 0.005 * max(0, len(text) - 15)))`. -/
def CaptionerClient.local_conf (len : Nat) : ℚ :=
  max 0 (min 1 (9/10 - 5/1000 * ((max 0 ((len : ℤ) - 15) : ℤ) : ℚ)))

/-- `CaptionerClient.caption`: BLIP result when available, else the cloud
fallback with confidence 1.0, else the mock caption with confidence 0.5.
Latency returns are dropped. -/
def CaptionerClient.caption (w : World) : List Char × ℚ :=
  match w.blip with
  | some text => (text, CaptionerClient.local_conf text.length)
  | none =>
    match w.cloud with
    | some c => (c, 1)
    | none => (mock_caption, 1/2)

/-- `CaptionerClient.caption_cloud`: `none` models every no-caption outcome. -/
def CaptionerClient.caption_cloud (w : World) : Option (List Char) := w.cloud

/-! ## POST /images (apps/api/routes/images.py, ingest_image) -/

inductive Event
  | local_caption | route_decision | cloud_caption | cache_store
  | embed_image | save_image | upsert_image
deriving DecidableEq

structure CurrentUser where
  id : String
  is_admin : Bool

structure IngestResult where
  caption : List Char
  origin : String
  confidence : ℚ
deriving DecidableEq

def emptyCachedRec : CachedRec := ⟨none, none, none⟩

/-- `ingest_image`, as the ordered trace of its side effects plus its outcome
(`Except` carries the HTTP status of a raised `HTTPException`).  The source
order is: local caption, routing decision, tier branch, image embedding,
storage write (bytes + thumbnail), visibility validation, upsert. -/
def ingest_image (w : World) (budget_ms : Int) (visibility : String)
    (user : CurrentUser) (x_client_caption : Option (List Char))
    (x_client_confidence : Option ℚ) : List Event × Except Nat IngestResult :=
  let lc := CaptionerClient.caption w
  let local_caption := lc.1
  let local_conf := lc.2
  let decision := route_caption_request w.cached budget_ms x_client_caption x_client_confidence
  let ev := [Event.local_caption, Event.route_decision]
  let br :
      (List Char × String × ℚ) × List Event :=
    if decision.tier = .cache then
      let cached := decision.metadata_cached_result.getD emptyCachedRec
      ((cached.caption.getD local_caption, cached.origin.getD "cache",
        cached.confidence.getD 1), ev)
    else if decision.tier = .edge then
      ((x_client_caption.getD [], "edge", pyOrQ x_client_confidence 1), ev)
    else if decision.tier = .cloud then
      match CaptionerClient.caption_cloud w with
      | some cloud_caption =>
        -- cloud success stores `confidence 1.0` into the cache, but note that
        -- the local `conf` variable is NOT overwritten here
        ((cloud_caption, "cloud", local_conf), ev ++ [Event.cloud_caption, Event.cache_store])
      | none => ((local_caption, "local", local_conf), ev ++ [Event.cloud_caption])
    else ((local_caption, "local", local_conf), ev)
  let caption := br.1.1
  let origin := br.1.2.1
  let conf := br.1.2.2
  let ev := br.2 ++ [Event.embed_image, Event.save_image]
  if visibility ≠ "private" ∧ visibility ≠ "public" ∧ visibility ≠ "public_admin" then
    (ev, .error 400)
  else if visibility = "public_admin" ∧ user.is_admin = false then
    (ev, .error 403)
  else
    (ev ++ [Event.upsert_image], .ok ⟨caption, origin, conf⟩)

/-! ## IngestionWorker.process_job (workers/ingestion/worker.py), caption part -/

structure WorkerRecord where
  caption : Option (List Char)
  confidence : ℚ
  origin : String
deriving DecidableEq

/-- The captioning section of `IngestionWorker.process_job`: the persisted
`(caption, confidence, origin)` per routing tier.  `caption_cloud` may return
`None`, which the worker persists as-is. -/
def IngestionWorker.process_job (w : World) (budget_ms : Int)
    (text_hint : Option (List Char)) (client_confidence : Option ℚ) : WorkerRecord :=
  let decision := route_caption_request w.cached budget_ms text_hint client_confidence
  if decision.tier = .local then
    let c := CaptionerClient.caption w
    ⟨some c.1, c.2, "local"⟩
  else if decision.tier = .cloud then
    ⟨CaptionerClient.caption_cloud w, 19/20, "cloud"⟩
  else if decision.tier = .edge then
    ⟨some (text_hint.getD []), client_confidence.getD 1, "edge"⟩
  else
    let cached := decision.metadata_cached_result.getD emptyCachedRec
    ⟨some (cached.caption.getD []), cached.confidence.getD 1, cached.origin.getD "cache"⟩

/-! ## Search (apps/api/storage/pgvector_store.py and apps/api/routes/search.py) -/

structure ImageRow where
  id : String
  caption : List Char
  owner_user_id : Option String
  visibility : String
  deleted_at : Option ℚ
deriving DecidableEq

/-- The WHERE clause built by `PgVectorStore.search`: always
`deleted_at IS NULL`, then the tenancy branch on `(user_id, scope)`.  A row
with `owner_user_id` NULL never satisfies `CAST(owner_user_id AS TEXT) = :uid`. -/
def scope_filter (user_id : Option String) (scope : String) (r : ImageRow) : Bool :=
  decide (r.deleted_at = none) &&
  (match user_id with
   | none => decide (r.visibility = "public") || decide (r.visibility = "public_admin")
   | some uid =>
     if scope = "mine" then decide (r.owner_user_id = some uid)
     else if scope = "public" then
       decide (r.visibility = "public") || decide (r.visibility = "public_admin")
     else
       decide (r.owner_user_id = some uid) || decide (r.visibility = "public")
         || decide (r.visibility = "public_admin"))

/-- Insertion into a list kept in descending `score` order. -/
def insertByScore (score : ImageRow → ℚ) (r : ImageRow) : List ImageRow → List ImageRow
  | [] => [r]
  | x :: xs => if score x ≤ score r then r :: x :: xs else x :: insertByScore score r xs

/-- `ORDER BY score DESC`, abstracted over the SQL scoring expression. -/
def sortByScoreDesc (score : ImageRow → ℚ) (rows : List ImageRow) : List ImageRow :=
  rows.foldr (insertByScore score) []

/-- `PgVectorStore.search`: tenancy filter, score ordering, `LIMIT k`.
`score` abstracts `(1 - (embed_vector <=> qvec))` plus the optional hybrid
text boost, both of which only affect ordering. -/
def PgVectorStore.search (rows : List ImageRow) (score : ImageRow → ℚ) (k : Nat)
    (user_id : Option String) (scope : String) : List ImageRow :=
  (sortByScoreDesc score (rows.filter (scope_filter user_id scope))).take k

/-- The `/search` route handler: scope validation (400), the
authentication-required check for `all`/`mine` (401), then the backend
search with `user_id = current_user.id` or `None`. -/
def search_route (rows : List ImageRow) (score : ImageRow → ℚ) (k : Nat)
    (scope : String) (current_user : Option String) : Except Nat (List ImageRow) :=
  if scope ≠ "all" ∧ scope ≠ "mine" ∧ scope ≠ "public" then .error 400
  else if (scope = "all" ∨ scope = "mine") ∧ current_user = none then .error 401
  else .ok (PgVectorStore.search rows score k current_user scope)

/-! ## Theorems -/

/-- C5 counterexample: on the whitespace-only string `" "`, `classify`
returns `(simple, 0.2)` — the string is truthy in Python, so the emptiness
guard does not fire and the token list is empty — while the spec's four
ordered rules give `(simple, 0.0)`. -/
theorem C5_classify_whitespace_counterexample :
    classify [' '] ≠ classifySpecRules [' '] ∧
    classify [' '] = ⟨"simple", 1/5⟩ ∧
    classifySpecRules [' '] = ⟨"simple", 0⟩ := by
  refine ⟨fun h => ?_, rfl, rfl⟩
  have e1 : classify [' '] = ⟨"simple", (1 : ℚ)/5⟩ := rfl
  have e2 : classifySpecRules [' '] = ⟨"simple", (0 : ℚ)⟩ := rfl
  rw [e1, e2] at h
  have h2 := congrArg ComplexityScore.score h
  norm_num at h2

/-- C5 amended: `classify` agrees everywhere with the four ordered rules
provided rule 1 fires only on the genuinely empty string; a whitespace-only
string falls through to the token rules and yields `(simple, 0.2)` because
its token list is empty. -/
theorem C5_classify_eq_rules_with_empty_only_first_rule (text : List Char) :
    classify text = classifySpecRulesEmptyOnly text := by
  unfold classify classifySpecRulesEmptyOnly
  by_cases h : text = []
  · rw [if_pos h, if_pos h]
  · rw [if_neg h, if_neg h]
    dsimp only
    by_cases hcnt : ((splitWs (text.map lowerChar)).filter
        (fun t => ABSTRACT_INDICATORS.contains t)).length = 0
    · have hgt : ¬((splitWs (text.map lowerChar)).filter
          (fun t => ABSTRACT_INDICATORS.contains t)).length > 0 := by omega
      by_cases h5 : (splitWs (text.map lowerChar)).length ≤ 5
      · rw [if_pos ⟨h5, hcnt⟩, if_neg hgt, if_pos h5]
      · have hc1 : ¬((splitWs (text.map lowerChar)).length ≤ 5 ∧
            ((splitWs (text.map lowerChar)).filter
              (fun t => ABSTRACT_INDICATORS.contains t)).length = 0) :=
          fun hh => h5 hh.1
        rw [if_neg hc1, if_neg hgt, if_neg hgt, if_neg h5]
    · have hgt : ((splitWs (text.map lowerChar)).filter
          (fun t => ABSTRACT_INDICATORS.contains t)).length > 0 := by omega
      have hc1 : ¬((splitWs (text.map lowerChar)).length ≤ 5 ∧
          ((splitWs (text.map lowerChar)).filter
            (fun t => ABSTRACT_INDICATORS.contains t)).length = 0) :=
        fun hh => hcnt hh.2
      rw [if_neg hc1, if_pos hgt, if_pos hgt]

/-- C1 counterexample: with an empty cache and no text_hint the complexity
score keeps its default 1.0, so `route(I, budget=150, hint=nil)` returns
`tier=cloud, reason=high_complexity, fallback=[local]` — not the
`tier=local, reason=low_latency_budget` the claim expects. -/
theorem C1_route_no_hint_counterexample :
    (route_caption_request none 150 none none).tier = RoutingTier.cloud ∧
    (route_caption_request none 150 none none).reason = "high_complexity" ∧
    (route_caption_request none 150 none none).tier ≠ RoutingTier.local ∧
    (route_caption_request none 150 none none).fallback_chain = [RoutingTier.local] := by
  refine ⟨rfl, rfl, fun h => ?_, rfl⟩
  have e : (route_caption_request none 150 none none).tier = RoutingTier.cloud := rfl
  rw [e] at h
  exact RoutingTier.noConfusion h

/-- C1 amended: with an empty cache and no text_hint the router always
returns `tier=cloud, reason=high_complexity, fallback=[local]` whatever the
budget; the `local` decisions with `fallback=[cloud]` and reason
`low_latency_budget` (budget < 200) or `default_local` (otherwise) occur
exactly when a non-empty text_hint is present, edge acceptance fails, and
the hint's complexity score is at most 0.7. -/
theorem C1_route_decisions :
    (∀ (budget : Int) (conf : Option ℚ),
      route_caption_request none budget none conf =
        { tier := .cloud, reason := "high_complexity", confidence := 1,
          latency_budget_ms := budget, fallback_chain := [.local],
          metadata_cached_result := none, metadata_complexity := some 1 })
    ∧ (∀ (budget : Int) (hint : List Char) (conf : Option ℚ),
        hint ≠ [] →
        ¬(pyOrQ conf 0 > 4/5 ∧ (classify hint).level = "simple") →
        (classify hint).score ≤ 7/10 →
        route_caption_request none budget (some hint) conf =
          { tier := .local,
            reason := if budget < 200 then "low_latency_budget" else "default_local",
            confidence := 1, latency_budget_ms := budget, fallback_chain := [.cloud],
            metadata_cached_result := none,
            metadata_complexity := some (classify hint).score }) := by
  constructor
  · intro budget conf
    rfl
  · intro budget hint conf hne hedge hscore
    unfold route_caption_request
    have ht : (!hint.isEmpty) = true := by
      simp [List.isEmpty_iff, hne]
    rw [if_pos ht]
    dsimp only [Option.getD]
    rw [if_neg hedge, if_neg (not_lt.mpr hscore)]
    by_cases hb : budget < 200
    · rw [if_pos hb, if_pos hb]
    · rw [if_neg hb, if_neg hb]

/-- C1 amended, witnessed at `hint = "hi"`, `budget = 150`, no client
confidence: the decision is `local / low_latency_budget / [cloud]`. -/
theorem C1_route_decisions_witness :
    route_caption_request none 150 (some ['h', 'i']) none =
      { tier := .local, reason := "low_latency_budget", confidence := 1,
        latency_budget_ms := 150, fallback_chain := [.cloud],
        metadata_cached_result := none, metadata_complexity := some (1/5) } := by
  have h := C1_route_decisions.2 150 ['h', 'i'] none
    (by simp)
    (by
      rintro ⟨h1, -⟩
      have e : pyOrQ none 0 = 0 := rfl
      rw [e] at h1
      norm_num at h1)
    (by
      have e : classify ['h', 'i'] = ⟨"simple", 1/5⟩ := rfl
      rw [e]
      norm_num)
  rw [h]
  have e : classify ['h', 'i'] = ⟨"simple", 1/5⟩ := rfl
  rw [e]
  norm_num

/-- One `record_failure` from CLOSED below threshold: still CLOSED, count +1,
threshold unchanged. -/
theorem CircuitBreaker.record_failure_closed_lt (b : CircuitBreaker) (t : ℚ)
    (hs : b.state = .closed) (hlt : b.failure_count + 1 < b.failure_threshold) :
    (b.record_failure t).state = .closed ∧
    (b.record_failure t).failure_count = b.failure_count + 1 ∧
    (b.record_failure t).failure_threshold = b.failure_threshold := by
  have hne : ¬(b.failure_count + 1 ≥ b.failure_threshold) := by omega
  simp [CircuitBreaker.record_failure, hs, hne]

/-- `record_failure` keeps an OPEN breaker OPEN. -/
theorem CircuitBreaker.record_failures_opened (ts : List ℚ) :
    ∀ b : CircuitBreaker, b.state = .opened →
      (b.record_failures ts).state = .opened := by
  induction ts with
  | nil => intro b hs; exact hs
  | cons t ts ih =>
    intro b hs
    have e : b.record_failures (t :: ts) = (b.record_failure t).record_failures ts := rfl
    rw [e]
    exact ih _ (by simp [CircuitBreaker.record_failure, hs])

/-- Consecutive failures from CLOSED that stay strictly below the threshold
leave the breaker CLOSED with the exact count. -/
theorem CircuitBreaker.record_failures_closed (ts : List ℚ) :
    ∀ b : CircuitBreaker, b.state = .closed →
      b.failure_count + ts.length < b.failure_threshold →
      (b.record_failures ts).state = .closed ∧
      (b.record_failures ts).failure_count = b.failure_count + ts.length ∧
      (b.record_failures ts).failure_threshold = b.failure_threshold := by
  induction ts with
  | nil => intro b hs _; exact ⟨hs, by simp [CircuitBreaker.record_failures], rfl⟩
  | cons t ts ih =>
    intro b hs hlt
    have e : b.record_failures (t :: ts) = (b.record_failure t).record_failures ts := rfl
    have h1 := CircuitBreaker.record_failure_closed_lt b t hs (by simp at hlt; omega)
    rw [e]
    have h2 := ih (b.record_failure t) h1.1 (by simp [h1.2.1, h1.2.2]; simp at hlt; omega)
    refine ⟨h2.1, ?_, ?_⟩
    · rw [h2.2.1, h1.2.1]; simp; omega
    · rw [h2.2.2, h1.2.2]

/-- Enough consecutive failures from CLOSED reach OPEN. -/
theorem CircuitBreaker.record_failures_reach_open (ts : List ℚ) :
    ∀ b : CircuitBreaker, b.state = .closed →
      b.failure_count < b.failure_threshold →
      b.failure_threshold ≤ b.failure_count + ts.length →
      (b.record_failures ts).state = .opened := by
  induction ts with
  | nil => intro b _ h1 h2; simp at h2; omega
  | cons t ts ih =>
    intro b hs h1 h2
    have e : b.record_failures (t :: ts) = (b.record_failure t).record_failures ts := rfl
    rw [e]
    by_cases hth : b.failure_count + 1 ≥ b.failure_threshold
    · have hopen : (b.record_failure t).state = .opened := by
        simp [CircuitBreaker.record_failure, hs, hth, CircuitBreaker.transition_to_open]
      exact CircuitBreaker.record_failures_opened ts _ hopen
    · have h3 := CircuitBreaker.record_failure_closed_lt b t hs (by omega)
      exact ih _ h3.1 (by rw [h3.2.1, h3.2.2]; omega)
        (by rw [h3.2.1, h3.2.2]; simp at h2 ⊢; omega)

/-- C7: starting in CLOSED with failure_count 0 and a positive threshold,
exactly `threshold` consecutive `record_failure` calls (no intervening
success) drive the breaker to OPEN, while fewer than `threshold` leave it
CLOSED; and from HALF_OPEN a single `record_success` returns to CLOSED with
`failure_count = 0`. -/
theorem C7_breaker_monotonicity :
    (∀ (b : CircuitBreaker) (times : List ℚ),
      b.state = .closed → b.failure_count = 0 → 0 < b.failure_threshold →
      (times.length = b.failure_threshold → (b.record_failures times).state = .opened) ∧
      (times.length < b.failure_threshold → (b.record_failures times).state = .closed))
    ∧ (∀ b : CircuitBreaker, b.state = .half_open →
        b.record_success.state = .closed ∧ b.record_success.failure_count = 0) := by
  constructor
  · intro b times hs hc ht
    constructor
    · intro hlen
      exact CircuitBreaker.record_failures_reach_open times b hs (by omega) (by omega)
    · intro hlen
      exact (CircuitBreaker.record_failures_closed times b hs (by omega)).1
  · intro b hs
    constructor <;>
      simp [CircuitBreaker.record_success, hs, CircuitBreaker.transition_to_closed]

/-- C7 witnessed with the default threshold 5: five failures starting from a
fresh breaker open the circuit, four leave it closed, and a success in
HALF_OPEN closes it and clears the count. -/
theorem C7_breaker_monotonicity_witness :
    ((CircuitBreaker.init 5 60 1).record_failures [1, 2, 3, 4, 5]).state = .opened ∧
    ((CircuitBreaker.init 5 60 1).record_failures [1, 2, 3, 4]).state = .closed ∧
    ({ CircuitBreaker.init 5 60 1 with
        state := .half_open } : CircuitBreaker).record_success.state = .closed ∧
    ({ CircuitBreaker.init 5 60 1 with
        state := .half_open } : CircuitBreaker).record_success.failure_count = 0 := by
  refine ⟨?_, ?_, ?_, ?_⟩
  · exact (C7_breaker_monotonicity.1 (CircuitBreaker.init 5 60 1) [1, 2, 3, 4, 5]
      rfl rfl (by decide)).1 rfl
  · exact (C7_breaker_monotonicity.1 (CircuitBreaker.init 5 60 1) [1, 2, 3, 4]
      rfl rfl (by decide)).2 (by decide)
  · exact (C7_breaker_monotonicity.2 _ rfl).1
  · exact (C7_breaker_monotonicity.2 _ rfl).2

/-- In HALF_OPEN with the probe budget exhausted, `can_proceed` denies and
leaves the breaker unchanged. -/
theorem CircuitBreaker.half_open_denied (b : CircuitBreaker) (now : ℚ)
    (hs : b.state = .half_open) (hmax : b.half_open_max_calls ≤ b.half_open_calls) :
    b.can_proceed now = (false, b) := by
  simp [CircuitBreaker.can_proceed, hs, Nat.not_lt.mpr hmax]

/-- A run of `can_proceed` calls starting in HALF_OPEN allows at most the
remaining probe budget `half_open_max_calls - half_open_calls`. -/
theorem CircuitBreaker.run_half_open_bound (ts : List ℚ) :
    ∀ b : CircuitBreaker, b.state = .half_open →
      (b.run_can_proceeds ts).1 ≤ b.half_open_max_calls - b.half_open_calls := by
  induction ts with
  | nil => intro b _; simp [CircuitBreaker.run_can_proceeds]
  | cons t ts ih =>
    intro b hs
    by_cases hlt : b.half_open_calls < b.half_open_max_calls
    · have e : b.can_proceed t =
          (true, { b with half_open_calls := b.half_open_calls + 1 }) := by
        simp [CircuitBreaker.can_proceed, hs, hlt]
      rcases hr : ({ b with half_open_calls := b.half_open_calls + 1 } :
          CircuitBreaker).run_can_proceeds ts with ⟨n, b2⟩
      have ihn := ih { b with half_open_calls := b.half_open_calls + 1 } (by simpa using hs)
      rw [hr] at ihn
      simp only [CircuitBreaker.run_can_proceeds, e, hr]
      simp at ihn ⊢
      omega
    · have e : b.can_proceed t = (false, b) :=
        CircuitBreaker.half_open_denied b t hs (by omega)
      rcases hr : b.run_can_proceeds ts with ⟨n, b2⟩
      have ihn := ih b hs
      rw [hr] at ihn
      simp only [CircuitBreaker.run_can_proceeds, e, hr]
      simpa using ihn

/-- A run of `can_proceed` calls starting in OPEN allows at most
`half_open_max_calls + 1` calls: the one that performs the OPEN→HALF_OPEN
transition (allowed without touching the probe counter) plus the probe
budget. -/
theorem CircuitBreaker.run_opened_bound (ts : List ℚ) :
    ∀ b : CircuitBreaker, b.state = .opened →
      (b.run_can_proceeds ts).1 ≤ b.half_open_max_calls + 1 := by
  induction ts with
  | nil => intro b _; simp [CircuitBreaker.run_can_proceeds]
  | cons t ts ih =>
    intro b hs
    match hoa : b.opened_at with
    | none =>
      have e : b.can_proceed t = (false, b) := by
        simp [CircuitBreaker.can_proceed, hs, hoa]
      rcases hr : b.run_can_proceeds ts with ⟨n, b2⟩
      have ihn := ih b hs
      rw [hr] at ihn
      simp only [CircuitBreaker.run_can_proceeds, e, hr]
      simpa using ihn
    | some t0 =>
      by_cases hc : t0 ≠ 0 ∧ t - t0 ≥ b.timeout_seconds
      · have e : b.can_proceed t = (true, b.transition_to_half_open) := by
          simp only [CircuitBreaker.can_proceed, hs, hoa]
          rw [if_pos hc]
        have hho : b.transition_to_half_open.state = .half_open := rfl
        have hbound := CircuitBreaker.run_half_open_bound ts b.transition_to_half_open hho
        rcases hr : b.transition_to_half_open.run_can_proceeds ts with ⟨n, b2⟩
        rw [hr] at hbound
        simp only [CircuitBreaker.run_can_proceeds, e, hr]
        have hmax : b.transition_to_half_open.half_open_max_calls = b.half_open_max_calls := rfl
        have hcalls : b.transition_to_half_open.half_open_calls = 0 := rfl
        rw [hmax, hcalls] at hbound
        simp
        omega
      · have e : b.can_proceed t = (false, b) := by
          simp only [CircuitBreaker.can_proceed, hs, hoa]
          rw [if_neg hc]
        rcases hr : b.run_can_proceeds ts with ⟨n, b2⟩
        have ihn := ih b hs
        rw [hr] at ihn
        simp only [CircuitBreaker.run_can_proceeds, e, hr]
        simpa using ihn

/-- C2 counterexample: threshold 1, timeout 60 s, `half_open_max_calls = 1`.
One failure at t=5 opens the circuit; `can_proceed` at t=65 performs the
OPEN→HALF_OPEN transition and is allowed; `can_proceed` at t=66 is allowed
as well because the transitioning call never incremented `half_open_calls`.
Two calls between the transition into HALF_OPEN and the (absent) transition
out return `allow = true`, exceeding `half_open_max_calls = 1`. -/
theorem C2_half_open_probe_counterexample :
    ((((CircuitBreaker.init 1 60 1).record_failure 5).can_proceed 65).2.state
      = CircuitState.half_open) ∧
    (((CircuitBreaker.init 1 60 1).record_failure 5).run_can_proceeds [65, 66, 67]).1 = 2 ∧
    (((CircuitBreaker.init 1 60 1).record_failure 5).run_can_proceeds [65, 66, 67]).2.state
      = CircuitState.half_open ∧
    (CircuitBreaker.init 1 60 1).half_open_max_calls = 1 := by
  have hc : (5 : ℚ) ≠ 0 ∧ (65 : ℚ) - 5 ≥ 60 := by norm_num
  have e1 : (CircuitBreaker.init 1 60 1).record_failure 5 =
      { failure_threshold := 1, timeout_seconds := 60, half_open_max_calls := 1,
        state := .opened, failure_count := 1, success_count := 0,
        last_failure_time := some 5, opened_at := some 5, half_open_calls := 0 } := rfl
  have e2 : CircuitBreaker.can_proceed
      { failure_threshold := 1, timeout_seconds := 60, half_open_max_calls := 1,
        state := .opened, failure_count := 1, success_count := 0,
        last_failure_time := some 5, opened_at := some 5, half_open_calls := 0 } 65 =
      (true,
      { failure_threshold := 1, timeout_seconds := 60, half_open_max_calls := 1,
        state := .half_open, failure_count := 1, success_count := 0,
        last_failure_time := some 5, opened_at := some 5, half_open_calls := 0 }) := by
    unfold CircuitBreaker.can_proceed
    dsimp only
    rw [if_pos hc]
    rfl
  have e3 : CircuitBreaker.can_proceed
      { failure_threshold := 1, timeout_seconds := 60, half_open_max_calls := 1,
        state := .half_open, failure_count := 1, success_count := 0,
        last_failure_time := some 5, opened_at := some 5, half_open_calls := 0 } 66 =
      (true,
      { failure_threshold := 1, timeout_seconds := 60, half_open_max_calls := 1,
        state := .half_open, failure_count := 1, success_count := 0,
        last_failure_time := some 5, opened_at := some 5, half_open_calls := 1 }) := rfl
  have e4 : CircuitBreaker.can_proceed
      { failure_threshold := 1, timeout_seconds := 60, half_open_max_calls := 1,
        state := .half_open, failure_count := 1, success_count := 0,
        last_failure_time := some 5, opened_at := some 5, half_open_calls := 1 } 67 =
      (false,
      { failure_threshold := 1, timeout_seconds := 60, half_open_max_calls := 1,
        state := .half_open, failure_count := 1, success_count := 0,
        last_failure_time := some 5, opened_at := some 5, half_open_calls := 1 }) := rfl
  refine ⟨by rw [e1, e2], ?_, ?_, rfl⟩ <;>
    simp only [e1, CircuitBreaker.run_can_proceeds, e2, e3, e4] <;> simp

/-- C2 amended: a run of `can_proceed` calls with no intervening
`record_success`/`record_failure` (the only transitions out of HALF_OPEN)
starting in OPEN allows at most `half_open_max_calls + 1` calls — the call
that performs the OPEN→HALF_OPEN transition, which does not increment the
probe counter, plus at most `half_open_max_calls` probes; a run starting in
HALF_OPEN allows at most the remaining `half_open_max_calls -
half_open_calls`, and any `can_proceed` entered in HALF_OPEN with
`half_open_calls ≥ half_open_max_calls` is denied and leaves the breaker
unchanged. -/
theorem C2_half_open_probe_bound :
    (∀ (b : CircuitBreaker) (times : List ℚ), b.state = .opened →
      (b.run_can_proceeds times).1 ≤ b.half_open_max_calls + 1)
    ∧ (∀ (b : CircuitBreaker) (times : List ℚ), b.state = .half_open →
      (b.run_can_proceeds times).1 ≤ b.half_open_max_calls - b.half_open_calls)
    ∧ (∀ (b : CircuitBreaker) (now : ℚ), b.state = .half_open →
      b.half_open_max_calls ≤ b.half_open_calls →
      b.can_proceed now = (false, b)) :=
  ⟨fun b times hs => CircuitBreaker.run_opened_bound times b hs,
   fun b times hs => CircuitBreaker.run_half_open_bound times b hs,
   fun b now hs hmax => CircuitBreaker.half_open_denied b now hs hmax⟩

/-- C2 amended, witnessed on the concrete OPEN breaker of the
counterexample run and on a HALF_OPEN breaker with its probe budget spent. -/
theorem C2_half_open_probe_bound_witness :
    (CircuitBreaker.run_can_proceeds
      { failure_threshold := 1, timeout_seconds := 60, half_open_max_calls := 1,
        state := .opened, failure_count := 1, success_count := 0,
        last_failure_time := some 5, opened_at := some 5, half_open_calls := 0 }
      [65, 66, 67]).1 ≤ 1 + 1 ∧
    CircuitBreaker.can_proceed
      { failure_threshold := 1, timeout_seconds := 60, half_open_max_calls := 1,
        state := .half_open, failure_count := 1, success_count := 0,
        last_failure_time := some 5, opened_at := some 5, half_open_calls := 1 } 67 =
      (false,
      { failure_threshold := 1, timeout_seconds := 60, half_open_max_calls := 1,
        state := .half_open, failure_count := 1, success_count := 0,
        last_failure_time := some 5, opened_at := some 5, half_open_calls := 1 }) :=
  ⟨C2_half_open_probe_bound.1 _ [65, 66, 67] rfl,
   C2_half_open_probe_bound.2.2 _ 67 rfl (by decide)⟩

/-- Filtering with a pointwise-weaker predicate keeps at least as many
elements. -/
theorem length_filter_le_of_imp {α : Type} (l : List α) (p q : α → Bool)
    (h : ∀ a ∈ l, p a = true → q a = true) :
    (l.filter p).length ≤ (l.filter q).length := by
  induction l with
  | nil => simp
  | cons a l ih =>
    have ih' := ih (fun x hx hp => h x (List.mem_cons_of_mem a hx) hp)
    by_cases hp : p a = true
    · have hq := h a (List.mem_cons_self a l) hp
      simp [List.filter_cons, hp, hq]
      omega
    · simp only [List.filter_cons]
      rw [if_neg (by simpa using hp)]
      by_cases hq : q a = true
      · rw [if_pos (by simpa using hq)]
        simp
        omega
      · rw [if_neg (by simpa using hq)]
        exact ih'

/-- `reset_daily_if_needed` only touches the daily window. -/
theorem RateLimiter.reset_fields (rl : RateLimiter) (now : ℚ) :
    (rl.reset_daily_if_needed now).daily_budget_usd = rl.daily_budget_usd ∧
    (rl.reset_daily_if_needed now).max_per_minute = rl.max_per_minute ∧
    (rl.reset_daily_if_needed now).max_per_day = rl.max_per_day ∧
    (rl.reset_daily_if_needed now).minute_requests = rl.minute_requests ∧
    ((rl.reset_daily_if_needed now).daily_cost = rl.daily_cost ∨
      (rl.reset_daily_if_needed now).daily_cost = 0) := by
  unfold RateLimiter.reset_daily_if_needed
  split_ifs <;> simp

/-- The admitted-request step never changes the configured limits. -/
theorem RateLimiter.step_config_const (rl : RateLimiter) (s : ℚ × ℚ × ℚ) :
    ((rl.step s).2).daily_budget_usd = rl.daily_budget_usd ∧
    ((rl.step s).2).max_per_minute = rl.max_per_minute ∧
    ((rl.step s).2).max_per_day = rl.max_per_day := by
  obtain ⟨now, est, cost⟩ := s
  simp only [RateLimiter.step, RateLimiter.can_proceed, RateLimiter.record_request,
    RateLimiter.reset_daily_if_needed, RateLimiter.prune_minute]
  split_ifs <;> simp

/-- One step keeps `daily_cost ≤ daily_budget_usd + C` when the estimate is
nonnegative and the recorded cost is at most `C`. -/
theorem RateLimiter.step_cost_bound (rl : RateLimiter) (now est cost C : ℚ)
    (hC : 0 ≤ C) (hb : 0 ≤ rl.daily_budget_usd)
    (hinv : rl.daily_cost ≤ rl.daily_budget_usd + C)
    (hest : 0 ≤ est) (hcost : cost ≤ C) :
    ((rl.step (now, est, cost)).2).daily_cost ≤ rl.daily_budget_usd + C := by
  simp only [RateLimiter.step, RateLimiter.can_proceed, RateLimiter.record_request,
    RateLimiter.reset_daily_if_needed, RateLimiter.prune_minute]
  split_ifs <;> simp_all <;> linarith

/-- Part A of limiter safety, by induction over the interaction sequence. -/
theorem RateLimiter.run_cost_bound (steps : List (ℚ × ℚ × ℚ)) :
    ∀ (rl : RateLimiter) (C : ℚ),
      0 ≤ C → 0 ≤ rl.daily_budget_usd →
      rl.daily_cost ≤ rl.daily_budget_usd + C →
      (∀ s ∈ steps, 0 ≤ s.2.1 ∧ s.2.2 ≤ C) →
      ((rl.run steps).2).daily_cost ≤ rl.daily_budget_usd + C := by
  induction steps with
  | nil => intro rl C _ _ hinv _; simpa [RateLimiter.run] using hinv
  | cons s rest ih =>
    intro rl C hC hb hinv hsteps
    obtain ⟨now, est, cost⟩ := s
    have hs := hsteps _ (List.mem_cons_self _ _)
    have h1 := RateLimiter.step_cost_bound rl now est cost C hC hb hinv hs.1 hs.2
    have hconf := RateLimiter.step_config_const rl (now, est, cost)
    rcases hstep : rl.step (now, est, cost) with ⟨a, rl1⟩
    rcases hrun : rl1.run rest with ⟨ts, rl2⟩
    have e : (rl.run ((now, est, cost) :: rest)).2 = rl2 := by
      simp only [RateLimiter.run, hstep, hrun]
    rw [e]
    rw [hstep] at h1 hconf
    have h2 := ih rl1 C hC (by rw [hconf.1]; exact hb) (by rw [hconf.1]; exact h1)
      (fun s hs' => hsteps s (List.mem_cons_of_mem _ hs'))
    rw [hrun] at h2
    rw [hconf.1] at h2
    exact h2

/-- Step equation: the budget check denies before any pruning. -/
theorem RateLimiter.step_eq_deny_budget (rl : RateLimiter) (now est cost : ℚ)
    (h : (rl.reset_daily_if_needed now).daily_cost + est >
      (rl.reset_daily_if_needed now).daily_budget_usd) :
    rl.step (now, est, cost) = (false, rl.reset_daily_if_needed now) := by
  simp only [RateLimiter.step, RateLimiter.can_proceed]
  rw [if_pos h]
  simp

/-- Step equation: per-minute denial after pruning. -/
theorem RateLimiter.step_eq_deny_minute (rl : RateLimiter) (now est cost : ℚ)
    (h1 : ¬((rl.reset_daily_if_needed now).daily_cost + est >
      (rl.reset_daily_if_needed now).daily_budget_usd))
    (h2 : ((rl.reset_daily_if_needed now).prune_minute now).max_per_minute ≤
      ((rl.reset_daily_if_needed now).prune_minute now).minute_requests.length) :
    rl.step (now, est, cost) = (false, (rl.reset_daily_if_needed now).prune_minute now) := by
  simp only [RateLimiter.step, RateLimiter.can_proceed]
  rw [if_neg h1, if_pos h2]
  simp

/-- Step equation: per-day denial after pruning. -/
theorem RateLimiter.step_eq_deny_day (rl : RateLimiter) (now est cost : ℚ)
    (h1 : ¬((rl.reset_daily_if_needed now).daily_cost + est >
      (rl.reset_daily_if_needed now).daily_budget_usd))
    (h2 : ¬(((rl.reset_daily_if_needed now).prune_minute now).max_per_minute ≤
      ((rl.reset_daily_if_needed now).prune_minute now).minute_requests.length))
    (h3 : ((rl.reset_daily_if_needed now).prune_minute now).max_per_day ≤
      ((rl.reset_daily_if_needed now).prune_minute now).daily_requests.length) :
    rl.step (now, est, cost) = (false, (rl.reset_daily_if_needed now).prune_minute now) := by
  simp only [RateLimiter.step, RateLimiter.can_proceed]
  rw [if_neg h1, if_neg h2, if_pos h3]
  simp

/-- Step equation: admission, followed by the paired `record_request`. -/
theorem RateLimiter.step_eq_allow (rl : RateLimiter) (now est cost : ℚ)
    (h1 : ¬((rl.reset_daily_if_needed now).daily_cost + est >
      (rl.reset_daily_if_needed now).daily_budget_usd))
    (h2 : ¬(((rl.reset_daily_if_needed now).prune_minute now).max_per_minute ≤
      ((rl.reset_daily_if_needed now).prune_minute now).minute_requests.length))
    (h3 : ¬(((rl.reset_daily_if_needed now).prune_minute now).max_per_day ≤
      ((rl.reset_daily_if_needed now).prune_minute now).daily_requests.length)) :
    rl.step (now, est, cost) =
      (true, ((rl.reset_daily_if_needed now).prune_minute now).record_request now cost) := by
  simp only [RateLimiter.step, RateLimiter.can_proceed]
  rw [if_neg h1, if_neg h2, if_neg h3]
  simp

/-- Part B of limiter safety: along any admit/record run with nondecreasing
timestamps, the timestamps of allowed steps falling in any 60-second window
`[T, T+60)` number at most `max_per_minute`, provided the recorded minute
window already dominates the allowed history (`hK`) and no window is already
over budget (`hG`); both hold trivially for an empty history. -/
theorem RateLimiter.run_minute_window (steps : List (ℚ × ℚ × ℚ)) :
    ∀ (rl : RateLimiter) (A : List ℚ) (τ : ℚ),
      (∀ s ∈ steps, τ ≤ s.1) →
      (steps.map (fun s => s.1)).Pairwise (· ≤ ·) →
      (∀ x : ℚ, τ ≤ x →
        (A.filter (fun t => decide (x - t < 60))).length ≤
          (rl.minute_requests.filter (fun t => decide (x - t < 60))).length) →
      (∀ T : ℚ, (A.filter (fun t => decide (T ≤ t ∧ t < T + 60))).length ≤ rl.max_per_minute) →
      ∀ T : ℚ,
        (((rl.run steps).1).filter (fun t => decide (T ≤ t ∧ t < T + 60))).length +
          (A.filter (fun t => decide (T ≤ t ∧ t < T + 60))).length ≤ rl.max_per_minute := by
  induction steps with
  | nil =>
    intro rl A τ _ _ _ hG T
    simpa [RateLimiter.run] using hG T
  | cons s rest ih =>
    intro rl A τ hτ hsort hK hG T
    obtain ⟨now, est, cost⟩ := s
    have hτnow : τ ≤ now := hτ _ (List.mem_cons_self _ _)
    have hrest : ∀ s' ∈ rest, now ≤ s'.1 := by
      intro s' hs'
      exact (List.pairwise_cons.mp (by simpa using hsort)).1 s'.1 (List.mem_map_of_mem _ hs')
    have hsort' : (rest.map (fun s => s.1)).Pairwise (· ≤ ·) :=
      (List.pairwise_cons.mp (by simpa using hsort)).2
    have hres := RateLimiter.reset_fields rl now
    by_cases hB : (rl.reset_daily_if_needed now).daily_cost + est >
        (rl.reset_daily_if_needed now).daily_budget_usd
    · have hstep := RateLimiter.step_eq_deny_budget rl now est cost hB
      rcases hrun : (rl.reset_daily_if_needed now).run rest with ⟨ts, rl2⟩
      have erun : rl.run ((now, est, cost) :: rest) = (ts, rl2) := by
        simp only [RateLimiter.run, hstep, hrun]
        rfl
      rw [erun]
      have hK' : ∀ x : ℚ, now ≤ x →
          (A.filter (fun t => decide (x - t < 60))).length ≤
            ((rl.reset_daily_if_needed now).minute_requests.filter
              (fun t => decide (x - t < 60))).length := by
        intro x hx
        rw [hres.2.2.2.1]
        exact hK x (le_trans hτnow hx)
      have hG' : ∀ T' : ℚ, (A.filter (fun t => decide (T' ≤ t ∧ t < T' + 60))).length ≤
          (rl.reset_daily_if_needed now).max_per_minute := by
        intro T'; rw [hres.2.1]; exact hG T'
      have hih := ih (rl.reset_daily_if_needed now) A now hrest hsort' hK' hG' T
      rw [hrun, hres.2.1] at hih
      exact hih
    · -- budget passed: the minute window is pruned in place
      have ePmin : ((rl.reset_daily_if_needed now).prune_minute now).minute_requests =
          rl.minute_requests.filter (fun t => decide (now - t < 60)) := by
        simp only [RateLimiter.prune_minute]
        rw [hres.2.2.2.1]
      have hPmax : ((rl.reset_daily_if_needed now).prune_minute now).max_per_minute =
          rl.max_per_minute := by
        simp only [RateLimiter.prune_minute]
        exact hres.2.1
      have hKP : ∀ x : ℚ, now ≤ x →
          (A.filter (fun t => decide (x - t < 60))).length ≤
            (((rl.reset_daily_if_needed now).prune_minute now).minute_requests.filter
              (fun t => decide (x - t < 60))).length := by
        intro x hx
        rw [ePmin, List.filter_filter]
        have e2 : rl.minute_requests.filter
            (fun a => decide (x - a < 60) && decide (now - a < 60)) =
            rl.minute_requests.filter (fun a => decide (x - a < 60)) := by
          apply List.filter_congr
          intro a _
          by_cases hxa : x - a < 60
          · have hna : now - a < 60 := by linarith
            simp [hxa, hna]
          · simp [hxa]
        rw [e2]
        exact hK x (le_trans hτnow hx)
      have hGP : ∀ T' : ℚ, (A.filter (fun t => decide (T' ≤ t ∧ t < T' + 60))).length ≤
          ((rl.reset_daily_if_needed now).prune_minute now).max_per_minute := by
        intro T'; rw [hPmax]; exact hG T'
      by_cases hM : ((rl.reset_daily_if_needed now).prune_minute now).max_per_minute ≤
          ((rl.reset_daily_if_needed now).prune_minute now).minute_requests.length
      · have hstep := RateLimiter.step_eq_deny_minute rl now est cost hB hM
        rcases hrun : ((rl.reset_daily_if_needed now).prune_minute now).run rest with ⟨ts, rl2⟩
        have erun : rl.run ((now, est, cost) :: rest) = (ts, rl2) := by
          simp only [RateLimiter.run, hstep, hrun]
          rfl
        rw [erun]
        have hih := ih ((rl.reset_daily_if_needed now).prune_minute now) A now
          hrest hsort' hKP hGP T
        rw [hrun, hPmax] at hih
        exact hih
      · by_cases hD : ((rl.reset_daily_if_needed now).prune_minute now).max_per_day ≤
            ((rl.reset_daily_if_needed now).prune_minute now).daily_requests.length
        · have hstep := RateLimiter.step_eq_deny_day rl now est cost hB hM hD
          rcases hrun : ((rl.reset_daily_if_needed now).prune_minute now).run rest with ⟨ts, rl2⟩
          have erun : rl.run ((now, est, cost) :: rest) = (ts, rl2) := by
            simp only [RateLimiter.run, hstep, hrun]
            rfl
          rw [erun]
          have hih := ih ((rl.reset_daily_if_needed now).prune_minute now) A now
            hrest hsort' hKP hGP T
          rw [hrun, hPmax] at hih
          exact hih
        · -- admitted: the paired record appends `now` to the windows
          have hstep := RateLimiter.step_eq_allow rl now est cost hB hM hD
          have eRmin : ((((rl.reset_daily_if_needed now).prune_minute now).record_request
              now cost)).minute_requests =
              ((rl.reset_daily_if_needed now).prune_minute now).minute_requests ++ [now] := by
            simp [RateLimiter.record_request]
          have eRmax : ((((rl.reset_daily_if_needed now).prune_minute now).record_request
              now cost)).max_per_minute = rl.max_per_minute := by
            simp only [RateLimiter.record_request]
            exact hPmax
          have hK1 : ∀ x : ℚ, now ≤ x →
              ((now :: A).filter (fun t => decide (x - t < 60))).length ≤
                (((((rl.reset_daily_if_needed now).prune_minute now).record_request
                  now cost)).minute_requests.filter (fun t => decide (x - t < 60))).length := by
            intro x hx
            rw [eRmin, List.filter_append]
            simp only [List.filter_cons, List.filter_nil]
            by_cases hxn : x - now < 60
            · rw [if_pos (by simpa using (decide_eq_true hxn)), if_pos (by simpa using (decide_eq_true hxn))]
              simp only [List.length_cons, List.length_append, List.length_cons, List.length_nil]
              have := hKP x hx
              omega
            · rw [if_neg (by simpa using hxn), if_neg (by simpa using hxn)]
              simp only [List.append_nil]
              exact hKP x hx
          have hG1 : ∀ T' : ℚ, ((now :: A).filter
              (fun t => decide (T' ≤ t ∧ t < T' + 60))).length ≤
              ((((rl.reset_daily_if_needed now).prune_minute now).record_request
                now cost)).max_per_minute := by
            intro T'
            rw [eRmax]
            simp only [List.filter_cons]
            by_cases hW : T' ≤ now ∧ now < T' + 60
            · rw [if_pos (by simpa using (decide_eq_true hW))]
              have h1 : (A.filter (fun t => decide (T' ≤ t ∧ t < T' + 60))).length ≤
                  (A.filter (fun t => decide (now - t < 60))).length := by
                apply length_filter_le_of_imp
                intro a _ hpa
                have hp := of_decide_eq_true hpa
                exact decide_eq_true (by cases hp with
                  | intro hl hr => cases hW with
                    | intro hwl hwr => linarith)
              have h2 := hKP now le_rfl
              have h3 := List.length_filter_le (fun t => decide (now - t < 60))
                ((rl.reset_daily_if_needed now).prune_minute now).minute_requests
              rw [hPmax] at hM
              simp only [List.length_cons]
              omega
            · rw [if_neg (by simpa using hW)]
              exact hG T'
          rcases hrun : ((((rl.reset_daily_if_needed now).prune_minute now).record_request
              now cost)).run rest with ⟨ts, rl2⟩
          have erun : rl.run ((now, est, cost) :: rest) = (now :: ts, rl2) := by
            simp only [RateLimiter.run, hstep, hrun]
            rfl
          rw [erun]
          have hih := ih ((((rl.reset_daily_if_needed now).prune_minute now).record_request
            now cost)) (now :: A) now hrest hsort' hK1 hG1 T
          rw [hrun, eRmax] at hih
          simp only [List.filter_cons] at hih ⊢
          by_cases hW : T ≤ now ∧ now < T + 60
          · rw [if_pos (by simpa using (decide_eq_true hW))] at hih ⊢
            simp only [List.length_cons] at hih ⊢
            omega
          · rw [if_neg (by simpa using hW)] at hih ⊢
            exact hih

/-- C3: limiter safety.  (i) Along any sequence of `admit`/`record` pairs
whose estimates are nonnegative and whose recorded costs are bounded by the
maximum single cost estimate `C`, `daily_cost` never exceeds
`daily_budget_usd + C`.  (ii) With nondecreasing timestamps, no sliding
60-second window `[T, T+60)` ever contains more than `max_per_minute`
admitted (`allow = true`) steps. -/
theorem C3_limiter_safety :
    (∀ (rl : RateLimiter) (steps : List (ℚ × ℚ × ℚ)) (C : ℚ),
      0 ≤ C → 0 ≤ rl.daily_budget_usd →
      rl.daily_cost ≤ rl.daily_budget_usd + C →
      (∀ s ∈ steps, 0 ≤ s.2.1 ∧ s.2.2 ≤ C) →
      ((rl.run steps).2).daily_cost ≤ rl.daily_budget_usd + C)
    ∧ (∀ (rl : RateLimiter) (steps : List (ℚ × ℚ × ℚ)),
      (steps.map (fun s => s.1)).Pairwise (· ≤ ·) →
      ∀ T : ℚ,
        (((rl.run steps).1).filter (fun t => decide (T ≤ t ∧ t < T + 60))).length ≤
          rl.max_per_minute) := by
  constructor
  · exact fun rl steps C hC hb hinv hsteps =>
      RateLimiter.run_cost_bound steps rl C hC hb hinv hsteps
  · intro rl steps hsort T
    cases steps with
    | nil => simp [RateLimiter.run]
    | cons s rest =>
      have hτ : ∀ s' ∈ s :: rest, s.1 ≤ s'.1 := by
        intro s' hs'
        rcases List.mem_cons.mp hs' with h | h
        · rw [h]
        · exact (List.pairwise_cons.mp (by simpa using hsort)).1 s'.1 (List.mem_map_of_mem _ h)
      have hmain := RateLimiter.run_minute_window (s :: rest) rl [] s.1 hτ hsort
        (by intro x _; simp) (by intro T'; simp) T
      simpa using hmain

/-- C3 witnessed on the default limits (60/min, 10000/day, 10 USD): one
admitted request of estimated and actual cost 0.001 keeps the daily cost
within budget + 0.001, and a two-step run stays within the per-minute cap
for the window starting at T = 0. -/
theorem C3_limiter_safety_witness :
    (((RateLimiter.init 60 10000 10 0).run [(1, 1/1000, 1/1000)]).2).daily_cost ≤
      (RateLimiter.init 60 10000 10 0).daily_budget_usd + 1/1000 ∧
    ((((RateLimiter.init 60 10000 10 0).run [(1, 0, 0), (2, 0, 0)]).1).filter
      (fun t => decide ((0 : ℚ) ≤ t ∧ t < 0 + 60))).length ≤
      (RateLimiter.init 60 10000 10 0).max_per_minute := by
  constructor
  · apply C3_limiter_safety.1
    · norm_num
    · show (0 : ℚ) ≤ 10
      norm_num
    · show (0 : ℚ) ≤ 10 + 1/1000
      norm_num
    · intro s hs
      simp only [List.mem_singleton] at hs
      rw [hs]
      norm_num
  · apply C3_limiter_safety.2
    simp only [List.map_cons, List.map_nil, List.pairwise_cons]
    norm_num

/-- Filtering by a predicate implied by the search predicate does not change
`find?`. -/
theorem find?_filter_of_imp {α : Type} (l : List α) (p q : α → Bool)
    (h : ∀ a, p a = true → q a = true) :
    (l.filter q).find? p = l.find? p := by
  induction l with
  | nil => rfl
  | cons a l ih =>
    by_cases hq : q a = true
    · rw [List.filter_cons_of_pos hq]
      by_cases hp : p a = true
      · rw [List.find?_cons_of_pos _ hp, List.find?_cons_of_pos _ hp]
      · rw [List.find?_cons_of_neg _ (by simpa using hp),
          List.find?_cons_of_neg _ (by simpa using hp)]
        exact ih
    · rw [List.filter_cons_of_neg (by simpa using hq)]
      have hp : ¬p a = true := fun hc => hq (h a hc)
      rw [List.find?_cons_of_neg _ (by simpa using hp)]
      exact ih

/-- String concatenation cancels on the left. -/
theorem string_append_left_cancel {s t u : String} (h : s ++ t = s ++ u) : t = u := by
  have hd := congrArg String.data h
  simp only [String.data_append] at hd
  exact String.ext (List.append_cancel_left hd)

/-- Distinct digests give distinct cache keys. -/
theorem cache_key_inj {h : Bytes → String} {b b' : Bytes}
    (he : cache_key h b = cache_key h b') : h b = h b' :=
  string_append_left_cancel he

/-- How a `store` affects a later `lookup`: same key ⇒ the fresh record while
unexpired; different key ⇒ unchanged. -/
theorem SemanticCache.lookup_store (h : Bytes → String) (s : CacheState)
    (t0 t : ℚ) (b b0 : Bytes) (r0 : CachedRec) :
    SemanticCache.lookup h (SemanticCache.store h s t0 b0 r0) t b =
      (if cache_key h b = cache_key h b0 then
        (if t < t0 + CACHE_TTL then some r0 else none)
      else SemanticCache.lookup h s t b) := by
  unfold SemanticCache.lookup SemanticCache.store redis_get redis_setex
  dsimp only
  by_cases hk : cache_key h b = cache_key h b0
  · rw [if_pos hk]
    have hp : decide ((cache_key h b0, t0 + CACHE_TTL, r0).1 = cache_key h b) = true := by
      simp [hk]
    simp only [List.find?_cons, hp]
  · rw [if_neg hk]
    have hp : decide ((cache_key h b0, t0 + CACHE_TTL, r0).1 = cache_key h b) = false := by
      simp
      exact fun hc => hk hc.symm
    simp only [List.find?_cons, hp]
    rw [find?_filter_of_imp]
    intro e hpe
    simp at hpe ⊢
    rw [hpe]
    exact fun hc => hk hc

/-- Provenance of a record returned by `lookup` over a history of stores. -/
theorem SemanticCache.lookup_run_stores (h : Bytes → String)
    (ops : List (ℚ × Bytes × CachedRec)) :
    ∀ (s : CacheState) (t : ℚ) (b : Bytes) (r : CachedRec),
      SemanticCache.lookup h (SemanticCache.run_stores h s ops) t b = some r →
      (∃ op ∈ ops, h op.2.1 = h b ∧ op.2.2 = r) ∨
        SemanticCache.lookup h s t b = some r := by
  induction ops with
  | nil => intro s t b r hl; exact Or.inr hl
  | cons op ops ih =>
    intro s t b r hl
    obtain ⟨t0, b0, r0⟩ := op
    have e : SemanticCache.run_stores h s ((t0, b0, r0) :: ops) =
        SemanticCache.run_stores h (SemanticCache.store h s t0 b0 r0) ops := rfl
    rw [e] at hl
    rcases ih (SemanticCache.store h s t0 b0 r0) t b r hl with hin | hbase
    · obtain ⟨op', hop', hh, hr⟩ := hin
      exact Or.inl ⟨op', List.mem_cons_of_mem _ hop', hh, hr⟩
    · rw [SemanticCache.lookup_store] at hbase
      by_cases hk : cache_key h b = cache_key h b0
      · rw [if_pos hk] at hbase
        by_cases ht : t < t0 + CACHE_TTL
        · rw [if_pos ht] at hbase
          refine Or.inl ⟨(t0, b0, r0), List.mem_cons_self _ _, ?_, ?_⟩
          · exact (cache_key_inj hk).symm
          · show r0 = r
            exact Option.some.inj hbase
        · rw [if_neg ht] at hbase
          exact absurd hbase (by simp)
      · rw [if_neg hk] at hbase
        exact Or.inr hbase

/-- C8: (i) `store(b, r)` followed by `lookup(b)` at any time before the TTL
elapses returns `r`; (ii) over any history of stores into an initially empty
cache, a record returned by `lookup(b)` was stored under bytes whose digest
equals that of `b` — bytes hashing differently can never be the source. -/
theorem C8_cache_round_trip :
    (∀ (h : Bytes → String) (s : CacheState) (now t : ℚ) (b : Bytes) (r : CachedRec),
      now ≤ t → t < now + CACHE_TTL →
      SemanticCache.lookup h (SemanticCache.store h s now b r) t b = some r)
    ∧ (∀ (h : Bytes → String) (ops : List (ℚ × Bytes × CachedRec)) (t : ℚ)
        (b : Bytes) (r : CachedRec),
      SemanticCache.lookup h (SemanticCache.run_stores h ⟨[]⟩ ops) t b = some r →
      ∃ op ∈ ops, h op.2.1 = h b ∧ op.2.2 = r) := by
  constructor
  · intro h s now t b r _ ht
    rw [SemanticCache.lookup_store, if_pos rfl, if_pos ht]
  · intro h ops t b r hl
    rcases SemanticCache.lookup_run_stores h ops ⟨[]⟩ t b r hl with hin | hbase
    · exact hin
    · exact absurd hbase (by simp [SemanticCache.lookup, redis_get, List.find?])

/-- C8 witnessed: a concrete store at t=0 looked up at t=1 returns the
record, and the provenance of that lookup is the store itself. -/
theorem C8_cache_round_trip_witness :
    SemanticCache.lookup (fun _ => "d") (SemanticCache.store (fun _ => "d") ⟨[]⟩ 0 [0]
      ⟨some ['c'], some 1, some "cloud"⟩) 1 [0] = some ⟨some ['c'], some 1, some "cloud"⟩ ∧
    ∃ op ∈ [((0 : ℚ), ([0] : Bytes), (⟨some ['c'], some 1, some "cloud"⟩ : CachedRec))],
      (fun _ => "d") op.2.1 = (fun (_ : Bytes) => "d") [0] ∧
        op.2.2 = (⟨some ['c'], some 1, some "cloud"⟩ : CachedRec) := by
  have h1 := C8_cache_round_trip.1 (fun _ => "d") ⟨[]⟩ 0 1 [0]
    ⟨some ['c'], some 1, some "cloud"⟩ (by norm_num) (by norm_num [CACHE_TTL])
  refine ⟨h1, ?_⟩
  exact C8_cache_round_trip.2 (fun _ => "d") [(0, [0], ⟨some ['c'], some 1, some "cloud"⟩)] 1 [0]
    ⟨some ['c'], some 1, some "cloud"⟩ h1

/-- Insertion sort membership: nothing new appears. -/
theorem mem_insertByScore {score : ImageRow → ℚ} {r x : ImageRow} :
    ∀ {l : List ImageRow}, x ∈ insertByScore score r l → x = r ∨ x ∈ l := by
  intro l
  induction l with
  | nil => intro hx; simpa [insertByScore] using hx
  | cons a l ih =>
    intro hx
    unfold insertByScore at hx
    by_cases hc : score a ≤ score r
    · rw [if_pos hc] at hx
      rcases List.mem_cons.mp hx with h | h
      · exact Or.inl h
      · exact Or.inr h
    · rw [if_neg hc] at hx
      rcases List.mem_cons.mp hx with h | h
      · exact Or.inr (h ▸ List.mem_cons_self a l)
      · rcases ih h with h' | h'
        · exact Or.inl h'
        · exact Or.inr (List.mem_cons_of_mem a h')

/-- Sorting by score permutes at most: members come from the input. -/
theorem mem_sortByScoreDesc {score : ImageRow → ℚ} {x : ImageRow} :
    ∀ {rows : List ImageRow}, x ∈ sortByScoreDesc score rows → x ∈ rows := by
  intro rows
  induction rows with
  | nil => intro hx; simpa [sortByScoreDesc] using hx
  | cons a rows ih =>
    intro hx
    unfold sortByScoreDesc at hx
    simp only [List.foldr_cons] at hx
    rcases mem_insertByScore hx with h | h
    · exact h ▸ List.mem_cons_self a rows
    · exact List.mem_cons_of_mem a (ih h)

/-- Every row returned by `PgVectorStore.search` passes the tenancy filter. -/
theorem PgVectorStore.search_filtered {rows : List ImageRow} {score : ImageRow → ℚ}
    {k : Nat} {user_id : Option String} {scope : String} {r : ImageRow}
    (hr : r ∈ PgVectorStore.search rows score k user_id scope) :
    scope_filter user_id scope r = true := by
  unfold PgVectorStore.search at hr
  have h1 := List.mem_of_mem_take hr
  have h2 := mem_sortByScoreDesc h1
  exact (List.mem_filter.mp h2).2

/-- C6: scope safety of `/search`.  Every returned row is live
(`deleted_at IS NULL`) and obeys the scope rule for the caller, and
anonymous callers asking for `mine` or `all` get the 401 unauthenticated
error instead of results. -/
theorem C6_search_tenancy :
    (∀ (rows : List ImageRow) (score : ImageRow → ℚ) (k : Nat) (scope : String)
      (user : Option String) (res : List ImageRow) (r : ImageRow),
      search_route rows score k scope user = .ok res → r ∈ res →
      r.deleted_at = none ∧
      (scope = "public" → (r.visibility = "public" ∨ r.visibility = "public_admin")) ∧
      (scope = "mine" → ∃ uid, user = some uid ∧ r.owner_user_id = some uid) ∧
      (scope = "all" → ∃ uid, user = some uid ∧
        (r.owner_user_id = some uid ∨ r.visibility = "public" ∨ r.visibility = "public_admin")))
    ∧ (∀ (rows : List ImageRow) (score : ImageRow → ℚ) (k : Nat),
      search_route rows score k "mine" none = .error 401 ∧
      search_route rows score k "all" none = .error 401) := by
  constructor
  · intro rows score k scope user res r hok hr
    unfold search_route at hok
    by_cases hv : scope ≠ "all" ∧ scope ≠ "mine" ∧ scope ≠ "public"
    · rw [if_pos hv] at hok
      exact absurd hok (by simp)
    · rw [if_neg hv] at hok
      by_cases ha : (scope = "all" ∨ scope = "mine") ∧ user = none
      · rw [if_pos ha] at hok
        exact absurd hok (by simp)
      · rw [if_neg ha] at hok
        have hres : res = PgVectorStore.search rows score k user scope :=
          (Except.ok.inj hok).symm
        have hf := PgVectorStore.search_filtered (hres ▸ hr)
        unfold scope_filter at hf
        rw [Bool.and_eq_true] at hf
        have hdel : r.deleted_at = none := of_decide_eq_true hf.1
        refine ⟨hdel, ?_, ?_, ?_⟩
        · intro hsc
          subst hsc
          match hu : user with
          | none =>
            dsimp only at hf
            rcases Bool.or_eq_true _ _ |>.mp hf.2 with h | h
            · exact Or.inl (of_decide_eq_true h)
            · exact Or.inr (of_decide_eq_true h)
          | some uid =>
            dsimp only at hf
            have hne : ¬("public" : String) = "mine" := by decide
            rw [if_neg hne, if_pos rfl] at hf
            rcases Bool.or_eq_true _ _ |>.mp hf.2 with h | h
            · exact Or.inl (of_decide_eq_true h)
            · exact Or.inr (of_decide_eq_true h)
        · intro hsc
          subst hsc
          match hu : user with
          | none => exact absurd ⟨Or.inr rfl, rfl⟩ ha
          | some uid =>
            dsimp only at hf
            rw [if_pos rfl] at hf
            exact ⟨uid, rfl, of_decide_eq_true hf.2⟩
        · intro hsc
          subst hsc
          match hu : user with
          | none => exact absurd ⟨Or.inl rfl, rfl⟩ ha
          | some uid =>
            dsimp only at hf
            have hne1 : ¬("all" : String) = "mine" := by decide
            have hne2 : ¬("all" : String) = "public" := by decide
            rw [if_neg hne1, if_neg hne2] at hf
            rcases Bool.or_eq_true _ _ |>.mp hf.2 with h | h
            · rcases Bool.or_eq_true _ _ |>.mp h with h' | h'
              · exact ⟨uid, rfl, Or.inl (of_decide_eq_true h')⟩
              · exact ⟨uid, rfl, Or.inr (Or.inl (of_decide_eq_true h'))⟩
            · exact ⟨uid, rfl, Or.inr (Or.inr (of_decide_eq_true h))⟩
  · intro rows score k
    constructor <;> rfl

/-- C6 witnessed: an anonymous `scope=public` search over a single live
public row returns that row, which satisfies the scope rule. -/
theorem C6_search_tenancy_witness :
    (⟨"B", ['c'], some "u2", "public", none⟩ : ImageRow).deleted_at = none ∧
    (("public" : String) = "public" →
      ((⟨"B", ['c'], some "u2", "public", none⟩ : ImageRow).visibility = "public" ∨
       (⟨"B", ['c'], some "u2", "public", none⟩ : ImageRow).visibility = "public_admin")) ∧
    (("public" : String) = "mine" → ∃ uid, (none : Option String) = some uid ∧
      (⟨"B", ['c'], some "u2", "public", none⟩ : ImageRow).owner_user_id = some uid) ∧
    (("public" : String) = "all" → ∃ uid, (none : Option String) = some uid ∧
      ((⟨"B", ['c'], some "u2", "public", none⟩ : ImageRow).owner_user_id = some uid ∨
       (⟨"B", ['c'], some "u2", "public", none⟩ : ImageRow).visibility = "public" ∨
       (⟨"B", ['c'], some "u2", "public", none⟩ : ImageRow).visibility = "public_admin")) := by
  have hok : search_route [⟨"B", ['c'], some "u2", "public", none⟩] (fun _ => 0) 1
      "public" none = .ok [⟨"B", ['c'], some "u2", "public", none⟩] := rfl
  exact C6_search_tenancy.1 [⟨"B", ['c'], some "u2", "public", none⟩] (fun _ => 0) 1
    "public" none [⟨"B", ['c'], some "u2", "public", none⟩]
    ⟨"B", ['c'], some "u2", "public", none⟩ hok (List.mem_singleton.mpr rfl)

/-- Sync ingestion, cloud tier, cloud caption available: the caption and
origin switch to cloud but the persisted confidence stays the local one. -/
theorem ingest_image_cloud_some (w : World) (budget : Int) (vis : String)
    (user : CurrentUser) (xc : Option (List Char)) (xconf : Option ℚ) (c : List Char)
    (ht : (route_caption_request w.cached budget xc xconf).tier = .cloud)
    (hc : w.cloud = some c)
    (hvalid : ¬(vis ≠ "private" ∧ vis ≠ "public" ∧ vis ≠ "public_admin"))
    (hadmin : ¬(vis = "public_admin" ∧ user.is_admin = false)) :
    ingest_image w budget vis user xc xconf =
      ([Event.local_caption, Event.route_decision, Event.cloud_caption, Event.cache_store,
        Event.embed_image, Event.save_image, Event.upsert_image],
       .ok ⟨c, "cloud", (CaptionerClient.caption w).2⟩) := by
  unfold ingest_image
  dsimp only
  rw [ht]
  simp only [CaptionerClient.caption_cloud, hc]
  have h1 : ¬(RoutingTier.cloud = RoutingTier.cache) := by decide
  have h2 : ¬(RoutingTier.cloud = RoutingTier.edge) := by decide
  rw [if_neg h1, if_neg h2]
  rw [if_neg hvalid, if_neg hadmin]
  simp

/-- Sync ingestion, cloud tier, no cloud caption: everything stays local. -/
theorem ingest_image_cloud_none (w : World) (budget : Int) (vis : String)
    (user : CurrentUser) (xc : Option (List Char)) (xconf : Option ℚ)
    (ht : (route_caption_request w.cached budget xc xconf).tier = .cloud)
    (hc : w.cloud = none)
    (hvalid : ¬(vis ≠ "private" ∧ vis ≠ "public" ∧ vis ≠ "public_admin"))
    (hadmin : ¬(vis = "public_admin" ∧ user.is_admin = false)) :
    ingest_image w budget vis user xc xconf =
      ([Event.local_caption, Event.route_decision, Event.cloud_caption,
        Event.embed_image, Event.save_image, Event.upsert_image],
       .ok ⟨(CaptionerClient.caption w).1, "local", (CaptionerClient.caption w).2⟩) := by
  unfold ingest_image
  dsimp only
  rw [ht]
  simp only [CaptionerClient.caption_cloud, hc]
  have h1 : ¬(RoutingTier.cloud = RoutingTier.cache) := by decide
  have h2 : ¬(RoutingTier.cloud = RoutingTier.edge) := by decide
  rw [if_neg h1, if_neg h2]
  rw [if_neg hvalid, if_neg hadmin]
  simp

/-- Sync ingestion, local tier. -/
theorem ingest_image_local (w : World) (budget : Int) (vis : String)
    (user : CurrentUser) (xc : Option (List Char)) (xconf : Option ℚ)
    (ht : (route_caption_request w.cached budget xc xconf).tier = .local)
    (hvalid : ¬(vis ≠ "private" ∧ vis ≠ "public" ∧ vis ≠ "public_admin"))
    (hadmin : ¬(vis = "public_admin" ∧ user.is_admin = false)) :
    ingest_image w budget vis user xc xconf =
      ([Event.local_caption, Event.route_decision,
        Event.embed_image, Event.save_image, Event.upsert_image],
       .ok ⟨(CaptionerClient.caption w).1, "local", (CaptionerClient.caption w).2⟩) := by
  unfold ingest_image
  dsimp only
  rw [ht]
  have h1 : ¬(RoutingTier.local = RoutingTier.cache) := by decide
  have h2 : ¬(RoutingTier.local = RoutingTier.edge) := by decide
  have h3 : ¬(RoutingTier.local = RoutingTier.cloud) := by decide
  rw [if_neg h1, if_neg h2, if_neg h3]
  dsimp only
  rw [if_neg hvalid, if_neg hadmin]
  simp

/-- Sync ingestion, edge tier: the client caption and `client_confidence or
1.0` are persisted. -/
theorem ingest_image_edge (w : World) (budget : Int) (vis : String)
    (user : CurrentUser) (xc : Option (List Char)) (xconf : Option ℚ)
    (ht : (route_caption_request w.cached budget xc xconf).tier = .edge)
    (hvalid : ¬(vis ≠ "private" ∧ vis ≠ "public" ∧ vis ≠ "public_admin"))
    (hadmin : ¬(vis = "public_admin" ∧ user.is_admin = false)) :
    ingest_image w budget vis user xc xconf =
      ([Event.local_caption, Event.route_decision,
        Event.embed_image, Event.save_image, Event.upsert_image],
       .ok ⟨xc.getD [], "edge", pyOrQ xconf 1⟩) := by
  unfold ingest_image
  dsimp only
  rw [ht]
  have h1 : ¬(RoutingTier.edge = RoutingTier.cache) := by decide
  rw [if_neg h1, if_pos rfl]
  dsimp only
  rw [if_neg hvalid, if_neg hadmin]
  simp

/-- Facts true of every sync ingestion trace: it starts with the local
caption call followed by the routing decision, calls the local captioner
exactly once, and always embeds and writes bytes + thumbnail to storage. -/
theorem ingest_image_events (w : World) (budget : Int) (vis : String)
    (user : CurrentUser) (xc : Option (List Char)) (xconf : Option ℚ) :
    ((ingest_image w budget vis user xc xconf).1.take 2 =
      [Event.local_caption, Event.route_decision]) ∧
    ((ingest_image w budget vis user xc xconf).1.count Event.local_caption = 1) ∧
    Event.local_caption ∈ (ingest_image w budget vis user xc xconf).1 ∧
    Event.embed_image ∈ (ingest_image w budget vis user xc xconf).1 ∧
    Event.save_image ∈ (ingest_image w budget vis user xc xconf).1 := by
  unfold ingest_image
  dsimp only
  rcases hcw : w.cloud with _ | c <;>
    simp only [CaptionerClient.caption_cloud, hcw] <;>
    split_ifs <;> simp_all

/-- Invalid visibility: the 400 is raised only after captioning, embedding
and the storage write; only the upsert is skipped. -/
theorem ingest_image_error_400 (w : World) (budget : Int) (vis : String)
    (user : CurrentUser) (xc : Option (List Char)) (xconf : Option ℚ)
    (hbad : vis ≠ "private" ∧ vis ≠ "public" ∧ vis ≠ "public_admin") :
    (ingest_image w budget vis user xc xconf).2 = .error 400 ∧
    Event.upsert_image ∉ (ingest_image w budget vis user xc xconf).1 := by
  unfold ingest_image
  dsimp only
  rcases hcw : w.cloud with _ | c <;>
    simp only [CaptionerClient.caption_cloud, hcw] <;>
    split_ifs <;> simp_all

/-- `public_admin` by a non-admin: 403 after the same side effects. -/
theorem ingest_image_error_403 (w : World) (budget : Int)
    (user : CurrentUser) (xc : Option (List Char)) (xconf : Option ℚ)
    (hna : user.is_admin = false) :
    (ingest_image w budget "public_admin" user xc xconf).2 = .error 403 ∧
    Event.upsert_image ∉ (ingest_image w budget "public_admin" user xc xconf).1 := by
  unfold ingest_image
  dsimp only
  rcases hcw : w.cloud with _ | c <;>
    simp only [CaptionerClient.caption_cloud, hcw] <;>
    split_ifs <;> simp_all

/-- An edge decision carries the client confidence: it requires a
`client_confidence` strictly above 0.8, and then both `or`-defaultings
return exactly that value. -/
theorem route_edge_client_confidence (cached : Option CachedRec) (budget : Int)
    (hint : Option (List Char)) (conf : Option ℚ)
    (ht : (route_caption_request cached budget hint conf).tier = .edge) :
    ∃ v, conf = some v ∧ 4/5 < v ∧ pyOrQ conf 1 = v ∧
      (route_caption_request cached budget hint conf).confidence = v := by
  match cached with
  | some c => exact absurd ht (by simp [route_caption_request])
  | none =>
    unfold route_caption_request at ht ⊢
    dsimp only at ht ⊢
    rcases hint with _ | hlist
    · exact absurd ht (by simp)
    · by_cases hne : (!hlist.isEmpty) = true
      · rw [if_pos hne] at ht ⊢
        by_cases hedge : pyOrQ conf 0 > 4/5 ∧ (classify ((some hlist).getD [])).level = "simple"
        · rw [if_pos hedge] at ht ⊢
          match hcf : conf with
          | none =>
            exact absurd hedge.1 (by norm_num [pyOrQ])
          | some v =>
            by_cases hv : v = 0
            · rw [hv] at hedge
              exact absurd hedge.1 (by norm_num [pyOrQ])
            · have he : pyOrQ (some v) 0 = v := by simp [pyOrQ, hv]
              rw [he] at hedge
              refine ⟨v, rfl, hedge.1, by simp [pyOrQ, hv], by simp [pyOrQ, hv]⟩
        · rw [if_neg hedge] at ht
          split_ifs at ht <;> exact absurd ht (by simp)
      · rw [if_neg hne] at ht
        exact absurd ht (by simp)

/-- Worker, cloud tier: confidence is hard-coded 0.95 and the possibly
absent cloud caption is persisted as-is. -/
theorem process_job_cloud (w : World) (budget : Int) (hint : Option (List Char))
    (conf : Option ℚ)
    (ht : (route_caption_request w.cached budget hint conf).tier = .cloud) :
    IngestionWorker.process_job w budget hint conf = ⟨w.cloud, 19/20, "cloud"⟩ := by
  unfold IngestionWorker.process_job
  dsimp only
  rw [ht]
  have h1 : ¬(RoutingTier.cloud = RoutingTier.local) := by decide
  rw [if_neg h1, if_pos rfl]
  simp [CaptionerClient.caption_cloud]

/-- Worker, local tier. -/
theorem process_job_local (w : World) (budget : Int) (hint : Option (List Char))
    (conf : Option ℚ)
    (ht : (route_caption_request w.cached budget hint conf).tier = .local) :
    IngestionWorker.process_job w budget hint conf =
      ⟨some (CaptionerClient.caption w).1, (CaptionerClient.caption w).2, "local"⟩ := by
  unfold IngestionWorker.process_job
  dsimp only
  rw [ht]
  rw [if_pos rfl]

/-- Worker, edge tier: `job.get("client_confidence", 1.0)` is a plain
dictionary default, not Python `or`. -/
theorem process_job_edge (w : World) (budget : Int) (hint : Option (List Char))
    (conf : Option ℚ)
    (ht : (route_caption_request w.cached budget hint conf).tier = .edge) :
    IngestionWorker.process_job w budget hint conf =
      ⟨some (hint.getD []), conf.getD 1, "edge"⟩ := by
  unfold IngestionWorker.process_job
  dsimp only
  rw [ht]
  have h1 : ¬(RoutingTier.edge = RoutingTier.local) := by decide
  have h2 : ¬(RoutingTier.edge = RoutingTier.cloud) := by decide
  rw [if_neg h1, if_neg h2, if_pos rfl]

/-- C9: the sync ingestion route invokes the local captioner exactly once,
as the first step and before the routing decision, whatever tier is then
chosen, and when the cloud tier is selected but the cloud call yields no
caption, the local caption is what gets persisted (with origin `local`). -/
theorem C9_local_caption_before_routing :
    (∀ (w : World) (budget : Int) (vis : String) (user : CurrentUser)
      (xc : Option (List Char)) (xconf : Option ℚ),
      ((ingest_image w budget vis user xc xconf).1.take 2 =
        [Event.local_caption, Event.route_decision]) ∧
      ((ingest_image w budget vis user xc xconf).1.count Event.local_caption = 1))
    ∧ (∀ (w : World) (budget : Int) (vis : String) (user : CurrentUser)
      (xc : Option (List Char)) (xconf : Option ℚ) (res : IngestResult),
      (route_caption_request w.cached budget xc xconf).tier = .cloud →
      w.cloud = none →
      (ingest_image w budget vis user xc xconf).2 = .ok res →
      res.caption = (CaptionerClient.caption w).1 ∧ res.origin = "local") := by
  constructor
  · intro w budget vis user xc xconf
    exact ⟨(ingest_image_events w budget vis user xc xconf).1,
           (ingest_image_events w budget vis user xc xconf).2.1⟩
  · intro w budget vis user xc xconf res ht hc hok
    by_cases hbad : vis ≠ "private" ∧ vis ≠ "public" ∧ vis ≠ "public_admin"
    · rw [(ingest_image_error_400 w budget vis user xc xconf hbad).1] at hok
      exact absurd hok (by simp)
    · by_cases hpa : vis = "public_admin" ∧ user.is_admin = false
      · rw [hpa.1] at hok
        rw [(ingest_image_error_403 w budget user xc xconf hpa.2).1] at hok
        exact absurd hok (by simp)
      · rw [ingest_image_cloud_none w budget vis user xc xconf ht hc hbad hpa] at hok
        dsimp only at hok
        obtain rfl := Except.ok.inj hok
        exact ⟨rfl, rfl⟩

/-- C9 witnessed: no hint routes to cloud, the cloud call fails, and the
local caption of the BLIP output `['d']` is persisted with origin local;
the trace starts local_caption, route_decision. -/
theorem C9_local_caption_before_routing_witness :
    ((ingest_image ⟨none, some ['d'], none⟩ 600 "private" ⟨"u", false⟩ none none).1.take 2 =
      [Event.local_caption, Event.route_decision]) ∧
    ((⟨(CaptionerClient.caption ⟨none, some ['d'], none⟩).1, "local",
        (CaptionerClient.caption ⟨none, some ['d'], none⟩).2⟩ : IngestResult).caption =
      (CaptionerClient.caption ⟨none, some ['d'], none⟩).1 ∧
     (⟨(CaptionerClient.caption ⟨none, some ['d'], none⟩).1, "local",
        (CaptionerClient.caption ⟨none, some ['d'], none⟩).2⟩ : IngestResult).origin = "local") := by
  constructor
  · exact (C9_local_caption_before_routing.1 ⟨none, some ['d'], none⟩ 600 "private"
      ⟨"u", false⟩ none none).1
  · refine C9_local_caption_before_routing.2 ⟨none, some ['d'], none⟩ 600 "private"
      ⟨"u", false⟩ none none _ rfl rfl ?_
    rw [ingest_image_cloud_none ⟨none, some ['d'], none⟩ 600 "private" ⟨"u", false⟩
      none none rfl rfl (by decide) (by decide)]

/-- C10: both the 400 (invalid visibility) and 403 (public_admin by a
non-admin) rejections happen only after the local caption, the embedding
and the bytes+thumbnail storage write; only the EmbedStore upsert is
skipped, and the trace (append-only by construction) shows no rollback. -/
theorem C10_validation_after_side_effects :
    (∀ (w : World) (budget : Int) (vis : String) (user : CurrentUser)
      (xc : Option (List Char)) (xconf : Option ℚ),
      (vis ≠ "private" ∧ vis ≠ "public" ∧ vis ≠ "public_admin") →
      (ingest_image w budget vis user xc xconf).2 = .error 400 ∧
      Event.local_caption ∈ (ingest_image w budget vis user xc xconf).1 ∧
      Event.embed_image ∈ (ingest_image w budget vis user xc xconf).1 ∧
      Event.save_image ∈ (ingest_image w budget vis user xc xconf).1 ∧
      Event.upsert_image ∉ (ingest_image w budget vis user xc xconf).1)
    ∧ (∀ (w : World) (budget : Int) (user : CurrentUser)
      (xc : Option (List Char)) (xconf : Option ℚ),
      user.is_admin = false →
      (ingest_image w budget "public_admin" user xc xconf).2 = .error 403 ∧
      Event.local_caption ∈ (ingest_image w budget "public_admin" user xc xconf).1 ∧
      Event.embed_image ∈ (ingest_image w budget "public_admin" user xc xconf).1 ∧
      Event.save_image ∈ (ingest_image w budget "public_admin" user xc xconf).1 ∧
      Event.upsert_image ∉ (ingest_image w budget "public_admin" user xc xconf).1) := by
  constructor
  · intro w budget vis user xc xconf hbad
    have he := ingest_image_events w budget vis user xc xconf
    have h4 := ingest_image_error_400 w budget vis user xc xconf hbad
    exact ⟨h4.1, he.2.2.1, he.2.2.2.1, he.2.2.2.2, h4.2⟩
  · intro w budget user xc xconf hna
    have he := ingest_image_events w budget "public_admin" user xc xconf
    have h4 := ingest_image_error_403 w budget user xc xconf hna
    exact ⟨h4.1, he.2.2.1, he.2.2.2.1, he.2.2.2.2, h4.2⟩

/-- C10 witnessed at the invalid visibility `"x"` and at `public_admin`
requested by a non-admin. -/
theorem C10_validation_after_side_effects_witness :
    ((ingest_image ⟨none, some ['d'], none⟩ 600 "x" ⟨"u", false⟩ none none).2 =
      .error 400 ∧
     Event.save_image ∈ (ingest_image ⟨none, some ['d'], none⟩ 600 "x" ⟨"u", false⟩
      none none).1 ∧
     Event.upsert_image ∉ (ingest_image ⟨none, some ['d'], none⟩ 600 "x" ⟨"u", false⟩
      none none).1) ∧
    ((ingest_image ⟨none, some ['d'], none⟩ 600 "public_admin" ⟨"u", false⟩ none none).2 =
      .error 403 ∧
     Event.upsert_image ∉ (ingest_image ⟨none, some ['d'], none⟩ 600 "public_admin"
      ⟨"u", false⟩ none none).1) := by
  have h1 := C10_validation_after_side_effects.1 ⟨none, some ['d'], none⟩ 600 "x"
    ⟨"u", false⟩ none none (by decide)
  have h2 := C10_validation_after_side_effects.2 ⟨none, some ['d'], none⟩ 600
    ⟨"u", false⟩ none none rfl
  exact ⟨⟨h1.1, h1.2.2.2.1, h1.2.2.2.2⟩, h2.1, h2.2.2.2.2⟩

/-- C4 counterexample: a no-hint sync ingestion routes to cloud; the cloud
caption `['x']` is persisted with origin cloud, yet its recorded confidence
is the local caption's 0.9 — not the 1.0 the claim states (1.0 is written
only into the cache entry). -/
theorem C4_cloud_confidence_counterexample :
    (ingest_image ⟨none, some ['a', ' ', 'c', 'a', 't'], some ['x']⟩ 600 "private"
      ⟨"u", false⟩ none none).2 = .ok ⟨['x'], "cloud", 9/10⟩ ∧
    (9/10 : ℚ) ≠ 1 := by
  constructor
  · rw [ingest_image_cloud_some ⟨none, some ['a', ' ', 'c', 'a', 't'], some ['x']⟩ 600
      "private" ⟨"u", false⟩ none none ['x'] rfl rfl (by decide) (by decide)]
    dsimp only
    have hconf : (CaptionerClient.caption
        ⟨none, some ['a', ' ', 'c', 'a', 't'], some ['x']⟩).2 = 9/10 := by
      show CaptionerClient.local_conf 5 = 9/10
      unfold CaptionerClient.local_conf
      norm_num
    rw [hconf]
  · norm_num

/-- C4 amended: the persisted confidence by origin is — sync route with a
successful BLIP run: local ⇒ the length-penalised clamp, cloud success ⇒
still the local clamp value (not 1.0), edge ⇒ the client confidence (which
edge acceptance forces to be present and above 0.8); worker: local ⇒ the
clamp, cloud ⇒ the constant 0.95, edge ⇒ `client_confidence` with plain
default 1.0. -/
theorem C4_confidence_by_origin :
    (∀ (w : World) (budget : Int) (vis : String) (user : CurrentUser)
      (xc : Option (List Char)) (xconf : Option ℚ) (text : List Char) (res : IngestResult),
      w.blip = some text →
      (ingest_image w budget vis user xc xconf).2 = .ok res →
      (((route_caption_request w.cached budget xc xconf).tier = .local →
        res.origin = "local" ∧ res.confidence = CaptionerClient.local_conf text.length) ∧
       (∀ c, (route_caption_request w.cached budget xc xconf).tier = .cloud →
        w.cloud = some c →
        res.origin = "cloud" ∧ res.confidence = CaptionerClient.local_conf text.length) ∧
       ((route_caption_request w.cached budget xc xconf).tier = .edge →
        ∃ v, xconf = some v ∧ 4/5 < v ∧ res.origin = "edge" ∧ res.confidence = v)))
    ∧ (∀ (w : World) (budget : Int) (hint : Option (List Char)) (conf : Option ℚ),
      ((route_caption_request w.cached budget hint conf).tier = .cloud →
        (IngestionWorker.process_job w budget hint conf).confidence = 19/20 ∧
        (IngestionWorker.process_job w budget hint conf).origin = "cloud") ∧
      ((route_caption_request w.cached budget hint conf).tier = .edge →
        (IngestionWorker.process_job w budget hint conf).confidence = conf.getD 1 ∧
        (IngestionWorker.process_job w budget hint conf).origin = "edge") ∧
      (∀ text, (route_caption_request w.cached budget hint conf).tier = .local →
        w.blip = some text →
        (IngestionWorker.process_job w budget hint conf).confidence =
          CaptionerClient.local_conf text.length ∧
        (IngestionWorker.process_job w budget hint conf).origin = "local")) := by
  constructor
  · intro w budget vis user xc xconf text res hblip hok
    have hcap : CaptionerClient.caption w = (text, CaptionerClient.local_conf text.length) := by
      unfold CaptionerClient.caption
      rw [hblip]
    by_cases hbad : vis ≠ "private" ∧ vis ≠ "public" ∧ vis ≠ "public_admin"
    · rw [(ingest_image_error_400 w budget vis user xc xconf hbad).1] at hok
      exact absurd hok (by simp)
    · by_cases hpa : vis = "public_admin" ∧ user.is_admin = false
      · rw [hpa.1] at hok
        rw [(ingest_image_error_403 w budget user xc xconf hpa.2).1] at hok
        exact absurd hok (by simp)
      · refine ⟨?_, ?_, ?_⟩
        · intro ht
          rw [ingest_image_local w budget vis user xc xconf ht hbad hpa] at hok
          dsimp only at hok
          obtain rfl := Except.ok.inj hok
          exact ⟨rfl, by rw [hcap]⟩
        · intro c ht hc
          rw [ingest_image_cloud_some w budget vis user xc xconf c ht hc hbad hpa] at hok
          dsimp only at hok
          obtain rfl := Except.ok.inj hok
          exact ⟨rfl, by rw [hcap]⟩
        · intro ht
          rw [ingest_image_edge w budget vis user xc xconf ht hbad hpa] at hok
          dsimp only at hok
          obtain rfl := Except.ok.inj hok
          obtain ⟨v, hv, hgt, hpy, -⟩ := route_edge_client_confidence w.cached budget xc xconf ht
          exact ⟨v, hv, hgt, rfl, hpy⟩
  · intro w budget hint conf
    refine ⟨?_, ?_, ?_⟩
    · intro ht
      rw [process_job_cloud w budget hint conf ht]
      exact ⟨rfl, rfl⟩
    · intro ht
      rw [process_job_edge w budget hint conf ht]
      exact ⟨rfl, rfl⟩
    · intro text ht hblip
      rw [process_job_local w budget hint conf ht]
      have hcap : CaptionerClient.caption w = (text, CaptionerClient.local_conf text.length) := by
        unfold CaptionerClient.caption
        rw [hblip]
      rw [hcap]
      exact ⟨rfl, rfl⟩

/-- C4 amended, witnessed at the counterexample configuration: persisted
origin cloud with the local confidence value, and the worker's cloud
confidence 0.95. -/
theorem C4_confidence_by_origin_witness :
    ((⟨['x'], "cloud", 9/10⟩ : IngestResult).origin = "cloud" ∧
     (⟨['x'], "cloud", 9/10⟩ : IngestResult).confidence =
       CaptionerClient.local_conf (['a', ' ', 'c', 'a', 't'] : List Char).length) ∧
    (IngestionWorker.process_job ⟨none, some ['d'], some ['x']⟩ 2000 none none).confidence
      = 19/20 := by
  constructor
  · refine (C4_confidence_by_origin.1 ⟨none, some ['a', ' ', 'c', 'a', 't'], some ['x']⟩
      600 "private" ⟨"u", false⟩ none none ['a', ' ', 'c', 'a', 't'] ⟨['x'], "cloud", 9/10⟩
      rfl ?_).2.1 ['x'] rfl rfl
    rw [ingest_image_cloud_some ⟨none, some ['a', ' ', 'c', 'a', 't'], some ['x']⟩ 600
      "private" ⟨"u", false⟩ none none ['x'] rfl rfl (by decide) (by decide)]
    dsimp only
    have hconf : (CaptionerClient.caption
        ⟨none, some ['a', ' ', 'c', 'a', 't'], some ['x']⟩).2 = 9/10 := by
      show CaptionerClient.local_conf 5 = 9/10
      unfold CaptionerClient.local_conf
      norm_num
    rw [hconf]
  · exact (C4_confidence_by_origin.2 ⟨none, some ['d'], some ['x']⟩ 2000 none none).1 rfl |>.1
